import Mathlib

/-!
Shallow embedding of the distribuito columnar store (Rust sources under
`src/`): the column value model (`src/table/column.rs`), the aggregation
algebra (`src/table/aggregate.rs`), cursors and row reconstruction
(`src/table/cursor.rs`, `src/table/table.rs`), the on-disk table state with
its stats and index files, and the request/serialization layer
(`src/transport/api.rs`).

Modelling conventions, used throughout:

* Rust `i64` is modelled as `Int` (the verified flows stay far from the
  64-bit boundaries; wrap-around is out of scope of the claims).
* Rust `f64` is modelled as `ℚ`.  Every floating-point value arising in the
  verified flows is a small dyadic rational on which IEEE double arithmetic
  is exact, so `ℚ` arithmetic coincides with `f64` arithmetic there.  NaN
  never arises in these flows.
* Files are modelled at entry granularity: an index file is a list of
  16-byte entries, a column file a list of `16 + size(ty)`-byte entries.
  All writes append whole entries, so `read_exact` fails exactly when the
  cursor position is past the last entry; that failure is modelled by
  `DbError.unexpectedEof`.
* Rust panics (out-of-bounds indexing, `expect`, explicit `panic!`,
  `Vec::remove` on an empty vector, `chunks(0)`) are modelled as the
  `error` branch of an `Except`, kept distinct from ordinary `io::Error`
  returns which are modelled by the other `DbError` constructors.
* Hash maps iterated for output are modelled as association lists in
  insertion order; the concrete results compared below have at most one
  group, for which the iteration order is irrelevant.
-/

namespace Distribuito

instance {ε α : Type} [DecidableEq ε] [DecidableEq α] : DecidableEq (Except ε α)
  | .ok a, .ok b =>
    if h : a = b then .isTrue (by rw [h])
    else .isFalse (by intro hc; cases hc; exact h rfl)
  | .error a, .error b =>
    if h : a = b then .isTrue (by rw [h])
    else .isFalse (by intro hc; cases hc; exact h rfl)
  | .ok _, .error _ => .isFalse (by intro hc; cases hc)
  | .error _, .ok _ => .isFalse (by intro hc; cases hc)

/-- Rust `str::split('.')` on the character list: pieces between dots,
with empty pieces kept and the empty string splitting to `[""]`. -/
def splitDotGo : List Char → List Char → List String
  | [], acc => [String.mk acc.reverse]
  | c :: rest, acc =>
    if c = '.' then String.mk acc.reverse :: splitDotGo rest []
    else splitDotGo rest (c :: acc)

def splitOnDot (s : String) : List String :=
  splitDotGo s.toList []

/-- Rust `char::is_whitespace`: the Unicode `White_Space` property, which
is exactly these 25 code points (U+0009..U+000D, U+0020, U+0085, U+00A0,
U+1680, U+2000..U+200A, U+2028, U+2029, U+202F, U+205F, U+3000). -/
def rustIsWhitespace (c : Char) : Bool :=
  (0x9 ≤ c.toNat && c.toNat ≤ 0xD) || c.toNat = 0x20 || c.toNat = 0x85 ||
  c.toNat = 0xA0 || c.toNat = 0x1680 || (0x2000 ≤ c.toNat && c.toNat ≤ 0x200A) ||
  c.toNat = 0x2028 || c.toNat = 0x2029 || c.toNat = 0x202F || c.toNat = 0x205F ||
  c.toNat = 0x3000

/-- Rust `str::trim`: strip leading and trailing `White_Space` characters,
over the character list. -/
def trimChars (s : String) : String :=
  String.mk (((s.toList.dropWhile rustIsWhitespace).reverse.dropWhile
    rustIsWhitespace).reverse)

/-! ### Column types and values (src/table/column.rs) -/

inductive ColumnType
  | integer
  | float
  | string
  | null
deriving DecidableEq, Repr

/-- Fixed on-disk width of a column type in bytes (`ColumnType::size`). -/
def ColumnType.size : ColumnType → Nat
  | .integer => 8
  | .float => 8
  | .string => 256
  | .null => 0

/-- Conversion `From<&ColumnType> for &str`. -/
def ColumnType.toStr : ColumnType → String
  | .integer => "integer"
  | .float => "float"
  | .string => "string"
  | .null => "null"

/-- Conversion `From<&str> for ColumnType`.  The Rust impl panics on any
other string (`panic!("Invalid column type")`); the panic is modelled by
`none`. -/
def ColumnType.fromStr? (s : String) : Option ColumnType :=
  if s = "integer" then some .integer
  else if s = "float" then some .float
  else if s = "string" then some .string
  else none

/-- Declaration-order rank, giving the derived `Ord` of the Rust enum. -/
def ColumnType.rank : ColumnType → Nat
  | .integer => 0
  | .float => 1
  | .string => 2
  | .null => 3

inductive ColumnValue
  | integer (v : Int)
  | float (v : ℚ)
  | string (s : String)
  | null
deriving DecidableEq, Repr

/-- Default value for a column type (`From<ColumnType> for ColumnValue`). -/
def ColumnValue.ofType : ColumnType → ColumnValue
  | .integer => .integer 0
  | .float => .float 0
  | .string => .string ""
  | .null => .null

/-- Addition on values (`impl Add for ColumnValue`): same-variant numeric
addition, int/float promotion, everything else `Null`. -/
def ColumnValue.add : ColumnValue → ColumnValue → ColumnValue
  | .integer a, .integer b => .integer (a + b)
  | .float a, .float b => .float (a + b)
  | .integer a, .float b => .float ((a : ℚ) + b)
  | .float a, .integer b => .float (a + (b : ℚ))
  | _, _ => .null

/-- Division on values (`impl Div for ColumnValue`): division by zero gives
`Null`; integer division truncates toward zero as in Rust (`Int.tdiv`). -/
def ColumnValue.div : ColumnValue → ColumnValue → ColumnValue
  | .integer a, .integer b => if b = 0 then .null else .integer (Int.tdiv a b)
  | .float a, .float b => if b = 0 then .null else .float (a / b)
  | .integer a, .float b => if b = 0 then .null else .float ((a : ℚ) / b)
  | .float a, .integer b => if b = 0 then .null else .float (a / (b : ℚ))
  | _, _ => .null

/-- Runtime type of a value (`From<&ColumnValue> for ColumnType` in
src/transport/api.rs). -/
def ColumnValue.columnType : ColumnValue → ColumnType
  | .integer _ => .integer
  | .float _ => .float
  | .string _ => .string
  | .null => .null

/-- Comparison mirroring the Rust `Ord`/`PartialOrd` impl on `ColumnValue`:
natural order within a variant, `Integer < Float < String < Null` across
variants.  (The `f64` comparison is total on the rationals that model the
floats here; NaN never arises.) -/
def ColumnValue.cmp : ColumnValue → ColumnValue → Ordering
  | .integer a, .integer b => compare a b
  | .float a, .float b => compare a b
  | .string a, .string b => compare a b
  | .null, .null => .eq
  | .integer _, _ => .lt
  | _, .integer _ => .gt
  | .float _, _ => .lt
  | _, .float _ => .gt
  | .string _, _ => .lt
  | _, .string _ => .gt

/-! ### Columns and name parsing (src/table/column.rs) -/

structure Column where
  name : String
  ty : ColumnType
deriving DecidableEq, Repr

/-- Derived lexicographic `Ord` on the Rust struct (name first, then type). -/
def Column.cmp (a b : Column) : Ordering :=
  (compare a.name b.name).then (compare a.ty.rank b.ty.rank)

/-- Error kinds of the embedded operations.  The first three model Rust
`io::Error` values carried through `io::Result`; `panic` models a Rust
panic unwinding out of the function. -/
inductive DbError
  | invalidData (msg : String)
  | unsupported (msg : String)
  | unexpectedEof
  | panic
deriving DecidableEq, Repr

/-- Parser for column file names (`parse_column_file_name`): split on `.`,
require exactly three parts, extension `dsto`, non-empty type part, and a
name of alphanumeric-or-underscore characters; then convert the type part,
which panics (modelled by `Except.error`) when the type is unknown.
Rust `char::is_alphanumeric` is Unicode-aware; it is modelled by the ASCII
`Char.isAlphanum`, with which it agrees on all ASCII characters, and the
theorems about this parser carry an ASCII hypothesis. -/
def parse_column_file_name (file_name : String) : Except Unit (Option (String × ColumnType)) :=
  match splitOnDot file_name with
  | [column_name, column_type, extension] =>
    if extension ≠ "dsto" then .ok none
    else if column_type = "" then .ok none
    else if column_name = "" ∨
        ¬ (column_name.toList.all fun c => c.isAlphanum ∨ c = '_') then .ok none
    else
      match ColumnType.fromStr? column_type with
      | some ty => .ok (some (column_name, ty))
      | none => .error ()
  | _ => .ok none

/-! ### Aggregates (src/table/aggregate.rs) -/

inductive Aggregate
  | count
  | sum
  | avg
deriving DecidableEq, Repr

/-- Conversion `From<Aggregate> for &str`. -/
def Aggregate.toStr : Aggregate → String
  | .count => "count"
  | .sum => "sum"
  | .avg => "avg"

/-- Rust `str::to_lowercase`, modelled character-wise by the ASCII
`Char.toLower` (they agree on ASCII input, the only input arising here). -/
def rustToLowercase (s : String) : String :=
  String.mk (s.toList.map Char.toLower)

/-- Conversion `From<&str> for Aggregate`: case-insensitive, and any
unknown name silently becomes `Count`. -/
def Aggregate.fromStr (s : String) : Aggregate :=
  match rustToLowercase s with
  | "count" => .count
  | "sum" => .sum
  | "avg" => .avg
  | _ => .count

/-- Tuple struct `AggregateColumn(Aggregate, Column)`. -/
structure AggregateColumn where
  fn : Aggregate
  col : Column
deriving DecidableEq, Repr

/-- Conversion `From<AggregateColumn> for String`: `"fn(col)"`. -/
def AggregateColumn.toName (a : AggregateColumn) : String :=
  a.fn.toStr ++ "(" ++ a.col.name ++ ")"

inductive MergeOp
  | count
  | sum
deriving DecidableEq, Repr

/-- `Aggregable<ColumnValue>::init`: `Count` starts at `Integer(0)`, `Sum`
at the column type's default, and both `Avg` components at `Float(0.0)`. -/
def aggregableInit (ac : AggregateColumn) : ColumnValue :=
  match ac.fn with
  | .count => .integer 0
  | .sum => ColumnValue.ofType ac.col.ty
  | .avg => .float 0

/-- `Aggregable<ColumnValue>::merge`: a `Count` op adds `Integer(1)` to the
running state regardless of the incoming value, a `Sum` op adds the
incoming value. -/
def aggregableMerge (self : ColumnValue) (op : MergeOp) (other : ColumnValue) : ColumnValue :=
  match op with
  | .count => self.add (.integer 1)
  | .sum => self.add other

inductive AggregateComponents
  | count (c : ColumnValue)
  | sum (s : ColumnValue)
  | avg (sum count : ColumnValue)
deriving DecidableEq, Repr

/-- `AggregateComponents::new`. -/
def AggregateComponents.new (ac : AggregateColumn) : AggregateComponents :=
  match ac.fn with
  | .count => .count (aggregableInit ac)
  | .sum => .sum (aggregableInit ac)
  | .avg => .avg (aggregableInit ac) (aggregableInit ac)

/-- `AggregateComponents::from_components_array`: takes the leading
components; `Vec::remove(0)` on an exhausted vector panics (`error`). -/
def AggregateComponents.from_components_array (ac : AggregateColumn)
    (components : List ColumnValue) : Except Unit AggregateComponents :=
  match ac.fn, components with
  | .count, c :: _ => .ok (.count c)
  | .sum, s :: _ => .ok (.sum s)
  | .avg, s :: c :: _ => .ok (.avg s c)
  | _, _ => .error ()

/-- `AggregateComponents::aggregate`, the per-row ingestion fold: `Count`
components advance by one, `Sum` components add the value, `Avg` does
both. -/
def AggregateComponents.aggregate (self : AggregateComponents) (value : ColumnValue) :
    AggregateComponents :=
  match self with
  | .count c => .count (aggregableMerge c .count value)
  | .sum s => .sum (aggregableMerge s .sum value)
  | .avg s c => .avg (aggregableMerge s .sum value) (aggregableMerge c .count value)

/-- `AggregateComponents::merge`, the cross-shard combination: every
component pair is combined with the `Sum` op; mismatched variants leave
the left state unchanged (the `_ => {}` arm). -/
def AggregateComponents.merge (self other : AggregateComponents) : AggregateComponents :=
  match self, other with
  | .count l, .count r => .count (aggregableMerge l .sum r)
  | .sum l, .sum r => .sum (aggregableMerge l .sum r)
  | .avg ls lc, .avg rs rc => .avg (aggregableMerge ls .sum rs) (aggregableMerge lc .sum rc)
  | s, _ => s

/-- `AggregateComponents::compute`, finalization into value plus
recoverable component array; `Avg` divides sum by count. -/
def AggregateComponents.compute : AggregateComponents → ColumnValue × List ColumnValue
  | .count c => (c, [c])
  | .sum s => (s, [s])
  | .avg s c => (s.div c, [s, c])

/-! ### Group keys, group values, rows (src/table/aggregate.rs, src/table/cursor.rs) -/

/-- Comparison on `(Column, ColumnValue)` pairs, the derived lexicographic
tuple `Ord` used by the `BTreeSet` inside `GroupKey`. -/
def pairCmp (a b : Column × ColumnValue) : Ordering :=
  (Column.cmp a.1 b.1).then (ColumnValue.cmp a.2 b.2)

/-- Ordered insertion into the sorted duplicate-free list modelling the
`BTreeSet<(Column, T)>`; an element already present is kept once. -/
def sortedInsertPair (l : List (Column × ColumnValue)) (p : Column × ColumnValue) :
    List (Column × ColumnValue) :=
  match l with
  | [] => [p]
  | q :: rest =>
    match pairCmp p q with
    | .lt => p :: q :: rest
    | .eq => q :: rest
    | .gt => q :: sortedInsertPair rest p

/-- `GroupKey<T>`: the sorted set of `(column, value)` pairs identifying a
group, modelled as the sorted list underlying the `BTreeSet`. -/
structure GroupKey where
  entries : List (Column × ColumnValue)
deriving DecidableEq, Repr

/-- `GroupValue<T>`: per-group partial aggregation state. -/
structure GroupValue where
  aggregates : List (AggregateColumn × AggregateComponents)
deriving DecidableEq, Repr

/-- `GroupValue::new`: fresh components for each aggregate column. -/
def GroupValue.new (aggregate_columns : List AggregateColumn) : GroupValue :=
  ⟨aggregate_columns.map fun a => (a, AggregateComponents.new a)⟩

/-- `GroupValue::from_aggregates`: re-hydrate every component array; a
malformed array panics inside `from_components_array`. -/
def GroupValue.from_aggregates (aggregates : List (AggregateColumn × List ColumnValue)) :
    Except Unit GroupValue :=
  match aggregates with
  | [] => .ok ⟨[]⟩
  | (a, comps) :: rest =>
    match AggregateComponents.from_components_array a comps with
    | .error e => .error e
    | .ok c =>
      match GroupValue.from_aggregates rest with
      | .error e => .error e
      | .ok ⟨tail⟩ => .ok ⟨(a, c) :: tail⟩

/-- `Row<T>` (src/table/cursor.rs). -/
structure Row where
  index_id : Nat
  timestamp : Nat
  values : List (Column × ColumnValue)
deriving DecidableEq, Repr

/-- `Row::value`: first component with the given column. -/
def Row.value (r : Row) (c : Column) : Option ColumnValue :=
  (r.values.find? fun p => p.1 = c).map (·.2)

/-- `Row::group`: keep the components whose column appears in the group-by
list and collect them into the sorted set. -/
def Row.group (r : Row) (group_by_columns : List Column) : GroupKey :=
  ⟨(r.values.filter fun p => group_by_columns.any fun g => g = p.1).foldl
    sortedInsertPair []⟩

/-- `GroupValue::add`: fold one row into every aggregate whose source
column is present in the row. -/
def GroupValue.add (gv : GroupValue) (row : Row) : GroupValue :=
  ⟨gv.aggregates.map fun p =>
    match row.value p.1.col with
    | some v => (p.1, p.2.aggregate v)
    | none => p⟩

/-- Find the component for an aggregate column and remove it, as
`GroupValue::merge` does with `position` plus `Vec::remove`. -/
def findRemove (l : List (AggregateColumn × AggregateComponents)) (ac : AggregateColumn) :
    Option (AggregateComponents × List (AggregateColumn × AggregateComponents)) :=
  match l with
  | [] => none
  | (a, c) :: rest =>
    if a = ac then some (c, rest)
    else (findRemove rest ac).map fun x => (x.1, (a, c) :: x.2)

/-- Worker for `GroupValue::merge`. -/
def mergeAggregatesGo (left other : List (AggregateColumn × AggregateComponents)) :
    List (AggregateColumn × AggregateComponents) :=
  match left with
  | [] => []
  | (ac, comp) :: rest =>
    match findRemove other ac with
    | none => (ac, comp) :: mergeAggregatesGo rest other
    | some (oc, other2) => (ac, comp.merge oc) :: mergeAggregatesGo rest other2

/-- `GroupValue::merge`: merge the matching component of the other state
into each of this state's components. -/
def GroupValue.merge (gv other : GroupValue) : GroupValue :=
  ⟨mergeAggregatesGo gv.aggregates other.aggregates⟩

/-- `AggregatedRow<T>` (src/table/cursor.rs).  The checked-in field type
`Option<Vec<T>>` does not typecheck against `from_group` and the uses in
src/transport/api.rs; following §4.7-§4.8 of the documented wire contract
(the components array is the full recoverable state) the components are
modelled as a plain list, which is what every use site in `src` expects. -/
structure AggregatedRow where
  values : List (Column × ColumnValue)
  aggregates : List (AggregateColumn × ColumnValue × List ColumnValue)
deriving DecidableEq, Repr

/-- `AggregatedRow::from_group`: finalize every component. -/
def AggregatedRow.from_group (group_key : GroupKey) (group_value : GroupValue) :
    AggregatedRow :=
  ⟨group_key.entries,
   group_value.aggregates.map fun p => (p.1, p.2.compute.1, p.2.compute.2)⟩

/-- Modelled from the spec: `AggregatedRow::new`, the constructor used by
the re-hydration path in src/transport/api.rs but absent from the
checked-in cursor.rs; per §4.7 it packages re-hydrated grouping values and
aggregate triples unchanged. -/
def AggregatedRow.new (values : List (Column × ColumnValue))
    (aggregates : List (AggregateColumn × ColumnValue × List ColumnValue)) : AggregatedRow :=
  ⟨values, aggregates⟩

/-- Modelled from the spec: `AggregatedRow::to_group`, used by
`QueryResult::merge_aggregated_rows` but absent from the checked-in
cursor.rs; per §4.7 it re-hydrates the row into `(GroupKey, GroupValue)`
from the components arrays (Count/Sum take their one element, Avg takes
sum then count). -/
def AggregatedRow.to_group (r : AggregatedRow) : Except Unit (GroupKey × GroupValue) :=
  match GroupValue.from_aggregates (r.aggregates.map fun p => (p.1, p.2.2)) with
  | .error e => .error e
  | .ok gv => .ok (⟨r.values⟩, gv)

/-! ### Queried-column parsing (src/table/column.rs) -/

/-- Rust `str::find`: position of the first character satisfying the
predicate. -/
def firstIndexOf (p : Char → Bool) : List Char → Option Nat
  | [] => none
  | c :: rest => if p c then some 0 else (firstIndexOf p rest).map (· + 1)

/-- `try_parse_queried_column`: trim, look for the first `(` and the first
`)`; if both exist, slice out function and column names and parse the
function when both are non-empty, otherwise fall through to a plain
column.  Rust slices `[open+1..close]` by byte index, which panics when
the first `)` sits before the `(` (start beyond end); that panic is the
`error` branch.  Byte indices of ASCII delimiters coincide with the
character positions used here. -/
def try_parse_queried_column (queried_column : String) : Except DbError (Option Aggregate × String) :=
  let t := trimChars queried_column
  let cs := t.toList
  match firstIndexOf (fun c => c = '(') cs, firstIndexOf (fun c => c = ')') cs with
  | some i, some j =>
    if i + 1 ≤ j then
      let function := trimChars (String.mk (cs.take i))
      let column := trimChars (String.mk ((cs.drop (i + 1)).take (j - (i + 1))))
      if function ≠ "" ∧ column ≠ "" then
        .ok (some (Aggregate.fromStr function), column)
      else .ok (none, t)
    else .error .panic
  | _, _ => .ok (none, t)

/-- `get_column`: first column with a matching name, else `Unsupported`. -/
def get_column (available_columns : List Column) (column : String) : Except DbError Column :=
  match available_columns.find? fun c => c.name = column with
  | some c => .ok c
  | none => .error (.unsupported "One or more columns do not exist on table")

/-- `parse_and_validate_columns`: resolve every name. -/
def parse_and_validate_columns (available_columns : List Column) (columns : List String) :
    Except DbError (List Column) :=
  match columns with
  | [] => .ok []
  | c :: rest =>
    match get_column available_columns c with
    | .error e => .error e
    | .ok found =>
      match parse_and_validate_columns available_columns rest with
      | .error e => .error e
      | .ok tail => .ok (found :: tail)

/-- `parse_and_validate_queried_columns`: aggregates contribute their
source column to the projected list as well. -/
def parse_and_validate_queried_columns (available_columns : List Column)
    (queried_columns : List String) : Except DbError (List Column × List AggregateColumn) :=
  match queried_columns with
  | [] => .ok ([], [])
  | q :: rest =>
    match try_parse_queried_column q with
    | .error e => .error e
    | .ok (aggregate?, column) =>
      match get_column available_columns column with
      | .error e => .error e
      | .ok found =>
        match parse_and_validate_queried_columns available_columns rest with
        | .error e => .error e
        | .ok (cols, aggs) =>
          match aggregate? with
          | some aggregate => .ok (found :: cols, ⟨aggregate, found⟩ :: aggs)
          | none => .ok (found :: cols, aggs)

/-! ### On-disk table state, cursors and row reconstruction
(src/table/table.rs, src/table/cursor.rs, src/io/file.rs) -/

/-- One 16-byte entry of the `.index.dsto` file. -/
structure IndexEntry where
  index_id : Nat
  timestamp : Nat
deriving DecidableEq, Repr

/-- One `16 + size(ty)`-byte entry of a column file.  The payload is kept
as the value whose encoding was written; reading decodes with the
column's declared type, which is the type of every payload written in the
flows verified here, making the byte round trip the identity. -/
structure ColumnEntry where
  index_id : Nat
  timestamp : Nat
  value : ColumnValue
deriving DecidableEq, Repr

/-- `RowComponent::same_row` specialised to a column entry against an
index entry: both the row id and the timestamp must agree. -/
def ColumnEntry.same_row (e : ColumnEntry) (i : IndexEntry) : Bool :=
  e.index_id == i.index_id && e.timestamp == i.timestamp

/-- The on-disk state of one table: the directory-derived column list, the
16-byte stats header (`none` models an absent or short `.stats.dsto`,
which reads as zeros), the index entries and the per-column files. -/
structure Table where
  columns : List Column
  statsFile : Option (Nat × Nat)
  index : List IndexEntry
  files : List (Column × List ColumnEntry)
deriving DecidableEq, Repr

/-- In-memory `TableStats`. -/
structure TableStats where
  row_count : Nat
  next_index : Nat
deriving DecidableEq, Repr

/-- `TableStats::from_file` via `seek_or`: an absent or short stats file
reads as zeros. -/
def TableStats.from_file (statsFile : Option (Nat × Nat)) : TableStats :=
  ⟨(statsFile.getD (0, 0)).1, (statsFile.getD (0, 0)).2⟩

/-- `TableStats::increment`: both in-memory counters advance by one; the
file write stores `row_count` at both offsets (the source writes
`row_count` twice). -/
def TableStats.increment (s : TableStats) : TableStats × (Nat × Nat) :=
  (⟨s.row_count + 1, s.next_index + 1⟩, (s.row_count + 1, s.row_count + 1))

/-- `TableDefinition::create`: ensure directory and files exist.
`create_file` is create-if-absent, so files of an existing table are kept
untouched and missing ones are created empty. -/
def TableDefinition.create (columns : List Column) (existing : Option Table) : Table :=
  match existing with
  | none => ⟨columns, none, [], columns.map fun c => (c, [])⟩
  | some t =>
    { t with
      columns := columns.foldl
        (fun cs c => if cs.any fun c2 => c2 = c then cs else cs ++ [c]) t.columns,
      files := columns.foldl
        (fun fs c => if fs.any fun p => p.1 = c then fs else fs ++ [(c, [])]) t.files }

/-- `TableDefinition::load`: open (creating if absent) index and stats
files; the `seek_or` reads write zeros back into an absent or short stats
header. -/
def Table.load (t : Table) : Table × TableStats :=
  let s := TableStats.from_file t.statsFile
  ({ t with statsFile := some (s.row_count, s.next_index) }, s)

/-- Lookup of a column file's entries. -/
def lookupFile (files : List (Column × List ColumnEntry)) (c : Column) : List ColumnEntry :=
  ((files.find? fun p => p.1 = c).map (·.2)).getD []

/-- Append one entry to a column file (`write_end` on the handle opened by
`create_and_open_file`; a missing file is created empty first). -/
def appendEntry (files : List (Column × List ColumnEntry)) (c : Column) (e : ColumnEntry) :
    List (Column × List ColumnEntry) :=
  match files with
  | [] => [(c, [e])]
  | (c2, es) :: rest =>
    if c2 = c then (c2, es ++ [e]) :: rest else (c2, es) :: appendEntry rest c e

/-- `Table::open_column_files` creates any missing column file empty. -/
def Table.ensure_files (t : Table) (cols : List Column) : Table :=
  { t with
    files := cols.foldl
      (fun fs c => if fs.any fun p => p.1 = c then fs else fs ++ [(c, [])]) t.files }

/-- The JSON values accepted by the insert path, mirroring the
`serde_json::Value` cases the code distinguishes: `is_i64` numbers,
`is_f64` numbers, strings, and everything else. -/
inductive Json
  | int (v : Int)
  | float (v : ℚ)
  | str (s : String)
  | bool (b : Bool)
  | null
deriving DecidableEq, Repr

/-- Encoding of a string payload: the writer takes the first 256 bytes and
NUL-pads, the reader cuts at the first NUL; their composition truncates at
256 and at the first NUL character.  Bytes are modelled as characters,
exact for ASCII payloads. -/
def storedString (s : String) : String :=
  String.mk ((s.toList.take 256).takeWhile fun c => c ≠ Char.ofNat 0)

/-- `Table::insert_value` (src/table/table.rs): type-check the JSON value
against the column type and produce the payload that `write_value`
appends.  A number is accepted by Integer and Float columns (the `is_i64`
branch writes the `i64` bytes unchanged, also into a Float column); a
string only by String columns; anything else is unsupported. -/
def Table.insert_value (column : Column) (value : Json) : Except DbError ColumnValue :=
  match value with
  | .int n =>
    if column.ty = .integer ∨ column.ty = .float then .ok (.integer n)
    else .error (.invalidData
      ("Column " ++ column.name ++ " has type " ++ column.ty.toStr ++ " but you supplied a number"))
  | .float q =>
    if column.ty = .integer ∨ column.ty = .float then .ok (.float q)
    else .error (.invalidData
      ("Column " ++ column.name ++ " has type " ++ column.ty.toStr ++ " but you supplied a number"))
  | .str s =>
    if column.ty = .string then .ok (.string (storedString s))
    else .error (.invalidData
      ("Column " ++ column.name ++ " has type " ++ column.ty.toStr ++ " but you supplied a string"))
  | _ => .error (.unsupported "Unsupported value type")

/-- Per-row column writes: `value.into_iter().zip(columns).zip(files)`,
appending `(row_id, timestamp, payload)` per supplied column in order and
stopping at the first error, which leaves the appends made so far. -/
def Table.insertRowValues (t : Table) (next_index : Nat) (timestamp : Nat) :
    List Column → List Json → Table × Except DbError Unit
  | c :: cols, v :: vs =>
    match Table.insert_value c v with
    | .error e => (t, .error e)
    | .ok payload =>
      Table.insertRowValues
        { t with files := appendEntry t.files c ⟨next_index, timestamp, payload⟩ }
        next_index timestamp cols vs
  | _, _ => (t, .ok ())

/-- The per-row loop of `Table::insert`: arity check, index append, column
appends, then `TableStats::increment` persisting the header. -/
def Table.insertRows (t : Table) (stats : TableStats) (timestamp : Nat)
    (columns : List Column) : List (List Json) → Table × Except DbError Unit
  | [] => (t, .ok ())
  | value :: rest =>
    if value.length ≠ columns.length then
      (t, .error (.invalidData "The values supplied do not match the number of columns"))
    else
      match Table.insertRowValues
          { t with index := t.index ++ [⟨stats.next_index, timestamp⟩] }
          stats.next_index timestamp columns value with
      | (t2, .error e) => (t2, .error e)
      | (t2, .ok ()) =>
        Table.insertRows { t2 with statsFile := some stats.increment.2 }
          stats.increment.1 timestamp columns rest

/-- `Table::insert` as reached through the handler: open, load, validate
the column names, open the column files, then insert every row with one
timestamp. -/
def Table.insertOp (t : Table) (timestamp : Nat) (columns : List String)
    (values : List (List Json)) : Table × Except DbError Unit :=
  match parse_and_validate_columns (t.load).1.columns columns with
  | .error e => ((t.load).1, .error e)
  | .ok cols =>
    Table.insertRows ((t.load).1.ensure_files cols) (t.load).2 timestamp cols values

/-! ### Row reconstruction (`Table::query_values`) -/

/-- The inner `loop` of `query_values` on one column cursor: read the
entry at the cursor (EOF propagates as an error through the `?`), stop
with the value on `same_row` advancing the cursor, stop without a value
when the column is ahead of the index, otherwise advance and retry. -/
def seek_column (idx : IndexEntry) : List ColumnEntry →
    Except DbError (List ColumnEntry × Option ColumnValue)
  | [] => .error .unexpectedEof
  | e :: rest =>
    if e.same_row idx then .ok (rest, some e.value)
    else if idx.index_id < e.index_id then .ok (e :: rest, none)
    else seek_column idx rest

/-- One index row across all column cursors: each slot is pre-filled with
`Null` and overwritten only on a `same_row` match. -/
def query_row : List (Column × List ColumnEntry) → IndexEntry →
    Except DbError (List (Column × List ColumnEntry) × List (Column × ColumnValue))
  | [], _ => .ok ([], [])
  | (c, es) :: rest, idx =>
    match seek_column idx es with
    | .error e => .error e
    | .ok (es2, value?) =>
      match query_row rest idx with
      | .error e => .error e
      | .ok (rest2, vals) => .ok ((c, es2) :: rest2, (c, value?.getD .null) :: vals)

/-- `Table::query_values`: stream the index cursor until its read fails,
assembling one row per index entry; any column-cursor error aborts the
whole scan. -/
def query_values : List IndexEntry → List (Column × List ColumnEntry) →
    Except DbError (List Row)
  | [], _ => .ok []
  | idx :: more, cursors =>
    match query_row cursors idx with
    | .error e => .error e
    | .ok (cursors2, comps) =>
      match query_values more cursors2 with
      | .error e => .error e
      | .ok rows => .ok (⟨idx.index_id, idx.timestamp, comps⟩ :: rows)

/-! ### Grouping and query (src/table/table.rs) -/

inductive QueryResult
  | rows (rows : List Row)
  | aggregatedRows (aggregated_rows : List AggregatedRow)
deriving DecidableEq, Repr

/-- The `HashMap` entry update of `aggregate_rows`: fold the row into the
existing group or initialize a fresh one from the aggregate columns. -/
def insertGroup (groups : List (GroupKey × GroupValue)) (key : GroupKey)
    (aggregate_columns : List AggregateColumn) (row : Row) : List (GroupKey × GroupValue) :=
  match groups with
  | [] => [(key, (GroupValue.new aggregate_columns).add row)]
  | (k, gv) :: rest =>
    if k = key then (k, gv.add row) :: rest
    else (k, gv) :: insertGroup rest key aggregate_columns row

/-- `Table::aggregate_rows`: group the rows and finalize each group. -/
def Table.aggregate_rows (rows : List Row) (aggregate_columns : List AggregateColumn)
    (group_by_columns : List Column) : List AggregatedRow :=
  (rows.foldl (fun gs r => insertGroup gs (r.group group_by_columns) aggregate_columns r)
    []).map fun p => AggregatedRow.from_group p.1 p.2

/-- `Table::query`: parse the select list and group-by list, open the
projected column files, reconstruct the rows, and aggregate when any
aggregate was selected. -/
def Table.query (t : Table) (columns : List String) (group_by_columns : Option (List String)) :
    Table × Except DbError QueryResult :=
  match parse_and_validate_queried_columns t.columns columns with
  | .error e => (t, .error e)
  | .ok (cols, aggregate_columns) =>
    match parse_and_validate_columns t.columns (group_by_columns.getD []) with
    | .error e => (t, .error e)
    | .ok group_cols =>
      match query_values (t.ensure_files cols).index
          (cols.map fun c => (c, lookupFile (t.ensure_files cols).files c)) with
      | .error e => (t.ensure_files cols, .error e)
      | .ok rows =>
        if aggregate_columns.isEmpty then (t.ensure_files cols, .ok (.rows rows))
        else (t.ensure_files cols,
          .ok (.aggregatedRows (Table.aggregate_rows rows aggregate_columns group_cols)))

/-- Query as reached through the handler: open, load (normalizing the
stats header), then `Table::query`. -/
def Table.queryOp (t : Table) (columns : List String)
    (group_by_columns : Option (List String)) : Table × Except DbError QueryResult :=
  Table.query (t.load).1 columns group_by_columns

/-! ### Wire model and result merging (src/transport/api.rs, src/table/table.rs) -/

/-- Wire-level `Column` (the api struct with optional `source_ty`).  The
api `ColumnType` enum mirrors the table one constructor for constructor
and is identified with it here; the `From<TableColumnType>` conversion
that panics on `Null` is never reached in the modelled flows because
queried columns always carry one of the three parsed file types. -/
structure ApiColumn where
  name : String
  ty : ColumnType
  source_ty : Option ColumnType
deriving DecidableEq, Repr

structure AggregateData where
  value : Json
  components : List Json
deriving DecidableEq, Repr

inductive QueryResponse
  | empty (errors : List String)
  | withAggregatedData (columns : List ApiColumn) (aggregate_columns : List ApiColumn)
      (data : List (List Json)) (aggregates : List (List AggregateData))
  | withData (columns : List ApiColumn) (data : List (List Json))
deriving DecidableEq, Repr

/-- `QueryResponse::empty()`. -/
def QueryResponse.emptyResp : QueryResponse := .empty []

/-- `From<ColumnValue> for serde_json::Value`.  `Number::from_f64` only
fails on NaN or infinity, which the rational model excludes. -/
def columnValueToJson : ColumnValue → Json
  | .integer v => .int v
  | .float v => .float v
  | .string s => .str s
  | .null => .null

/-- Collect a list of fallible results, stopping at the first error, as
`collect::<Result<Vec<_>, _>>()` does. -/
def collectE {ε α : Type} : List (Except ε α) → Except ε (List α)
  | [] => .ok []
  | x :: rest =>
    match x with
    | .error e => .error e
    | .ok a =>
      match collectE rest with
      | .error e => .error e
      | .ok tail => .ok (a :: tail)

/-- `serialize_rows`: reads `rows[0]` for the column headers, an
out-of-bounds panic (`error`) when the row list is empty. -/
def serialize_rows (rows : List Row) : Except Unit QueryResponse :=
  match rows with
  | [] => .error ()
  | r0 :: _ =>
    .ok (.withData
      (r0.values.map fun p => ⟨p.1.name, p.1.ty, none⟩)
      (rows.map fun r => r.values.map fun p => columnValueToJson p.2))

/-- `serialize_aggregated_rows`: reads `aggregated_rows[0]` for the
headers — an out-of-bounds panic when empty; each aggregate column is
named `"fn(col)"`, typed by its computed value, and carries the source
column type. -/
def serialize_aggregated_rows (aggregated_rows : List AggregatedRow) :
    Except Unit QueryResponse :=
  match aggregated_rows with
  | [] => .error ()
  | r0 :: _ =>
    .ok (.withAggregatedData
      (r0.values.map fun p => ⟨p.1.name, p.1.ty, none⟩)
      (r0.aggregates.map fun p => ⟨p.1.toName, p.2.1.columnType, some p.1.col.ty⟩)
      (aggregated_rows.map fun r => r.values.map fun p => columnValueToJson p.2)
      (aggregated_rows.map fun r => r.aggregates.map fun p =>
        ⟨columnValueToJson p.2.1, p.2.2.map columnValueToJson⟩))

/-- `serialize_query_result`. -/
def serialize_query_result : QueryResult → Except Unit QueryResponse
  | .rows rows => serialize_rows rows
  | .aggregatedRows aggregated_rows => serialize_aggregated_rows aggregated_rows

/-- `QueryResponse::build_column_and_column_value`: decode one JSON value
with the declared type; every mismatch falls through to `Null`. -/
def build_column_and_column_value (column : ApiColumn) (value : Json) :
    Column × ColumnValue :=
  (⟨column.name, column.ty⟩,
   match column.ty, value with
   | .integer, .int n => .integer n
   | .float, .float q => .float q
   | .string, .str s => .string s
   | .null, .null => .null
   | _, _ => .null)

/-- `QueryResponse::build_aggregated_row_component`: parse the aggregate
name back (an `expect`ed parse panic propagates), fall back to a `Count`
over the wire column when the name carries no aggregate, otherwise
re-hydrate value and components; a missing `source_ty` panics. -/
def build_aggregated_row_component (column : ApiColumn) (aggregate_data : AggregateData) :
    Except Unit (AggregateColumn × ColumnValue × List ColumnValue) :=
  match try_parse_queried_column column.name with
  | .error _ => .error ()
  | .ok (none, _) => .ok (⟨.count, ⟨column.name, column.ty⟩⟩, .null, [])
  | .ok (some aggregate, column_name) =>
    match column.source_ty with
    | none => .error ()
    | some source_ty =>
      let main := build_column_and_column_value ⟨column_name, source_ty, none⟩ aggregate_data.value
      .ok (⟨aggregate, main.1⟩, main.2,
        aggregate_data.components.map fun v => (build_column_and_column_value column v).2)

/-- `QueryResponse::to_query_result`: re-hydrate a peer response into a
`QueryResult`; an `Empty` response becomes an empty row list. -/
def QueryResponse.to_query_result : QueryResponse → Except Unit QueryResult
  | .empty _ => .ok (.rows [])
  | .withData columns data =>
    .ok (.rows (data.map fun data_row =>
      ⟨0, 0, List.zipWith build_column_and_column_value columns data_row⟩))
  | .withAggregatedData columns aggregate_columns data aggregates =>
    match collectE ((data.zip aggregates).map fun p =>
      match collectE (List.zipWith build_aggregated_row_component aggregate_columns p.2) with
      | .error e => .error e
      | .ok aggs =>
        .ok (AggregatedRow.new (List.zipWith build_column_and_column_value columns p.1) aggs)) with
    | .error e => .error e
    | .ok rows => .ok (.aggregatedRows rows)

/-- The `HashMap` entry update of `merge_aggregated_rows`: an occupied
entry merges the incoming state into the stored one, a vacant entry
inserts it. -/
def upsertGroup (groups : List (GroupKey × GroupValue)) (key : GroupKey) (gv : GroupValue) :
    List (GroupKey × GroupValue) :=
  match groups with
  | [] => [(key, gv)]
  | (k, g) :: rest =>
    if k = key then (k, g.merge gv) :: rest
    else (k, g) :: upsertGroup rest key gv

/-- One pass of `merge_aggregated_rows` over a row list: re-hydrate each
row (a malformed components array panics) and fold it into the map. -/
def mergeRowsInto (groups : List (GroupKey × GroupValue)) :
    List AggregatedRow → Except Unit (List (GroupKey × GroupValue))
  | [] => .ok groups
  | r :: rest =>
    match r.to_group with
    | .error e => .error e
    | .ok (key, gv) => mergeRowsInto (upsertGroup groups key gv) rest

/-- `QueryResult::merge_aggregated_rows`: fold both sides into one map and
finalize every group again. -/
def merge_aggregated_rows (left right : List AggregatedRow) :
    Except Unit (List AggregatedRow) :=
  match mergeRowsInto [] left with
  | .error e => .error e
  | .ok gs =>
    match mergeRowsInto gs right with
    | .error e => .error e
    | .ok gs2 => .ok (gs2.map fun p => AggregatedRow.from_group p.1 p.2)

inductive MergeErr
  | mismatch
  | panicked
deriving DecidableEq, Repr

/-- `QueryResult::merge`: rows concatenate, aggregated rows merge
group-wise, mixed variants are an `InvalidData` error. -/
def QueryResult.merge : QueryResult → QueryResult → Except MergeErr QueryResult
  | .rows left, .rows right => .ok (.rows (left ++ right))
  | .aggregatedRows left, .aggregatedRows right =>
    match merge_aggregated_rows left right with
    | .error _ => .error .panicked
    | .ok merged => .ok (.aggregatedRows merged)
  | _, _ => .error .mismatch

/-- The merge loop of the `query` handler, folding every shard result into
the local one and stopping at the first error. -/
def mergeAll (q : QueryResult) : List QueryResult → Except MergeErr QueryResult
  | [] => .ok q
  | r :: rest =>
    match q.merge r with
    | .error e => .error e
    | .ok q2 => mergeAll q2 rest

/-! ### Request handlers and insert striping (src/transport/api.rs) -/

structure InsertRequest where
  insert : List String
  into : String
  values : List (List Json)
deriving DecidableEq, Repr

/-- Rust `slice::chunks(chunk_size)`: groups of `chunk_size` elements, the
last possibly shorter, none empty.  The `chunk_size = 0` branch is
unreachable from `split`, which models the `chunks(0)` panic first. -/
def chunksOfFuel {α : Type} : Nat → Nat → List α → List (List α)
  | 0, _, _ => []
  | _ + 1, _, [] => []
  | fuel + 1, cs, l@(_ :: _) => l.take cs :: chunksOfFuel fuel cs (l.drop cs)

def chunksOf {α : Type} (cs : Nat) (l : List α) : List (List α) :=
  chunksOfFuel l.length cs l

/-- `InsertRequest::split`: chunk size `ceil(len / n)`; a zero chunk size
(empty values, or `n = 0` whose Rust arithmetic also panics) makes
`chunks` panic, modelled by `error`. -/
def InsertRequest.split (r : InsertRequest) (n : Nat) : Except Unit (List InsertRequest) :=
  let chunk_size := (r.values.length + n - 1) / n
  if chunk_size = 0 then .error ()
  else .ok ((chunksOf chunk_size r.values).map fun chunk => ⟨r.insert, r.into, chunk⟩)

/-- The local half of the `query` handler, which is also the whole handler
on a peer (its shard list is empty): a failed local query answers with the
`Empty` response, a successful one is serialized — where an empty result
panics. -/
def localQueryHandler (t : Table) (select : List String)
    (group_by : Option (List String)) : Except Unit QueryResponse :=
  match (Table.queryOp t select group_by).2 with
  | .error .panic => .error ()
  | .error _ => .ok QueryResponse.emptyResp
  | .ok qr => serialize_query_result qr

/-- The master `query` handler: broadcast to every peer (one failing peer
fails the broadcast, whose error is logged and leaves no shard results),
re-hydrate the peer responses, run the local query, merge, and serialize
the merged result.  A merge variant mismatch answers `Empty`; panics
escape the handler. -/
def queryHandler (t : Table) (peers : List Table) (select : List String)
    (group_by : Option (List String)) : Except Unit QueryResponse :=
  match (match collectE (peers.map fun p => localQueryHandler p select group_by) with
         | .error _ => .ok []
         | .ok responses => collectE (responses.map QueryResponse.to_query_result) :
         Except Unit (List QueryResult)) with
  | .error e => .error e
  | .ok results =>
    match (Table.queryOp t select group_by).2 with
    | .error .panic => .error ()
    | .error _ => .ok QueryResponse.emptyResp
    | .ok qr =>
      match mergeAll qr results with
      | .error .panicked => .error ()
      | .error .mismatch => .ok QueryResponse.emptyResp
      | .ok merged => serialize_query_result merged

/-! ### The distributed count pipeline (src/transport/api.rs `insert` and
`query` handlers over the single-integer-column table `t(x integer)`) -/

/-- A fresh table with one integer column `x`, as the broadcast
`create_table` leaves it on every node. -/
def freshX : Table := TableDefinition.create [⟨"x", .integer⟩] none

/-- JSON rows for a batch of integers. -/
def intRows (xs : List Int) : List (List Json) :=
  xs.map fun v => [Json.int v]

/-- Round-robin assignment of the unicast requests: the chunk sent with
counter value `c` goes to shard `c % numPeers`, mirroring `next_shard`. -/
def assignChunks {α : Type} (numPeers : Nat) : List α → Nat → Nat → List α
  | [], _, _ => []
  | r :: rest, counter, j =>
    (if counter % numPeers = j then [r] else []) ++ assignChunks numPeers rest (counter + 1) j

/-- Insert a list of integer batches into a table, one handler call per
batch (each call opens, loads, inserts with timestamp 0). -/
def insChunks (t : Table) (chunks : List (List Int)) : Table :=
  chunks.foldl (fun t c => (Table.insertOp t 0 ["x"] (intRows c)).1) t

/-- The full distributed run for `SELECT count(x) FROM t`: the chunk list
is the partition of the insert batch, the master keeps the first chunk
and the rest are unicast round-robin to the `numPeers` peers; afterwards
the master query handler fans out and merges.  An empty chunk list models
the `requests.remove(0)` panic. -/
def distributedCountRun (chunks : List (List Int)) (numPeers : Nat) :
    Except Unit QueryResponse :=
  match chunks with
  | [] => .error ()
  | m :: rest =>
    let master := insChunks freshX [m]
    let peers := (List.range numPeers).map fun j =>
      insChunks freshX (assignChunks numPeers rest 0 j)
    queryHandler master peers ["count(x)"] none

/-- The single-node run: insert the whole batch in one call and query. -/
def singleCountRun (xs : List Int) : Except Unit QueryResponse :=
  queryHandler (insChunks freshX [xs]) [] ["count(x)"] none

/-- The values a shard holds after round-robin distribution of the
non-master chunks. -/
def peerVals (numPeers : Nat) (rest : List (List Int)) (j : Nat) : List Int :=
  (assignChunks numPeers rest 0 j).flatten

/-! ### Named values used by the claim statements -/

/-- The single integer column `x` of the count pipeline. -/
def xColumn : Column := ⟨"x", .integer⟩

/-- Index entries `start, start+1, ...` written with timestamp 0. -/
def xIdxEntries : Nat → Nat → List IndexEntry
  | _, 0 => []
  | s, n + 1 => ⟨s, 0⟩ :: xIdxEntries (s + 1) n

/-- Column-file entries for consecutive integer inserts from `start`. -/
def xColEntries : Nat → List Int → List ColumnEntry
  | _, [] => []
  | s, y :: ys => ⟨s, 0, .integer y⟩ :: xColEntries (s + 1) ys

/-- The canonical on-disk state of `t(x integer)` after inserting the
values `ys` (one row each, timestamp 0) into a fresh table. -/
def xTable (ys : List Int) : Table :=
  ⟨[xColumn], some (ys.length, ys.length), xIdxEntries 0 ys.length, [(xColumn, xColEntries 0 ys)]⟩

/-- The reconstructed rows of `xTable`. -/
def xRows : Nat → List Int → List Row
  | _, [] => []
  | s, y :: ys => ⟨s, 0, [(xColumn, .integer y)]⟩ :: xRows (s + 1) ys

/-- The single aggregated row `count(x) = k` of the global group. -/
def countRow (k : Int) : AggregatedRow :=
  ⟨[], [(⟨.count, xColumn⟩, .integer k, [.integer k])]⟩

/-- The serialized response carrying `count(x) = k`. -/
def countResponse (k : Int) : QueryResponse :=
  .withAggregatedData [] [⟨"count(x)", .integer, some .integer⟩] [[]] [[⟨.int k, [.int k]⟩]]

/-- Repeated `Count`-op application, the state a count component reaches
after the given number of rows. -/
def addOnes (c : ColumnValue) : Nat → ColumnValue
  | 0 => c
  | n + 1 => addOnes (c.add (.integer 1)) n

/-- The per-row ingestion fold of one component over a value stream. -/
def foldAggregate (init : AggregateComponents) (vs : List ColumnValue) : AggregateComponents :=
  vs.foldl (fun a v => a.aggregate v) init

/-- The aggregate values of a single-row aggregated result. -/
def aggregateValues : Except DbError QueryResult → List ColumnValue
  | .ok (.aggregatedRows [r]) => r.aggregates.map (·.2.1)
  | _ => []

/-- The stats/index invariant of §8: the two stats header fields agree and
equal the number of index entries (an absent or short header reads as
zeros). -/
def statsInv (t : Table) : Prop :=
  (t.statsFile.getD (0, 0)).1 = (t.statsFile.getD (0, 0)).2 ∧
  (t.statsFile.getD (0, 0)).1 = t.index.length

instance (t : Table) : Decidable (statsInv t) := by
  unfold statsInv; exact inferInstance

/-- The sparse-column scenario of the spec: `events(a integer, b integer)`
with `[1], [2]` inserted into `a` only and `[10]` into `b` only. -/
def eventsT0 : Table := TableDefinition.create [⟨"a", .integer⟩, ⟨"b", .integer⟩] none

def eventsInsertA : Table × Except DbError Unit :=
  Table.insertOp eventsT0 100 ["a"] [[.int 1], [.int 2]]

def eventsInsertB : Table × Except DbError Unit :=
  Table.insertOp eventsInsertA.1 200 ["b"] [[.int 10]]

/-- The local-aggregation scenario: `nums(x integer)` with `[1],[2],[3],[4]`. -/
def numsTable : Table := (Table.insertOp freshX 0 ["x"] (intRows [1, 2, 3, 4])).1

def numsQuery : Except DbError QueryResult :=
  (Table.queryOp numsTable ["count(x)", "sum(x)", "avg(x)"] none).2

/-- The claim's acceptance condition for column file names: exactly three
parts `name.type.ext`, extension `dsto`, a known type, and a non-empty
name over `[A-Za-z0-9_]` (note that `Char.isAlphanum` is by definition
exactly the ASCII `[A-Za-z0-9]` range test). -/
def claimAccepts (s : String) : Option (String × ColumnType) :=
  match splitOnDot s with
  | [name, ty, ext] =>
    if ext = "dsto" ∧ (ty = "integer" ∨ ty = "float" ∨ ty = "string") ∧
        name ≠ "" ∧ name.toList.all (fun c => c.isAlphanum ∨ c = '_') then
      some (name,
        if ty = "integer" then .integer else if ty = "float" then .float else .string)
    else none
  | _ => none

/-- The file-name shapes on which the parser panics: three parts, `dsto`
extension, valid name, non-empty type outside `{integer,float,string}`. -/
def claimPanicShape (s : String) : Prop :=
  match splitOnDot s with
  | [name, ty, ext] =>
    ext = "dsto" ∧ ty ≠ "" ∧ ¬ (ty = "integer" ∨ ty = "float" ∨ ty = "string") ∧
    name ≠ "" ∧ name.toList.all (fun c => c.isAlphanum ∨ c = '_')
  | _ => False

/-! ## Theorems -/

/-! ### Generic lemmas about the value algebra and ingestion folds -/

lemma add_null (v : ColumnValue) : v.add .null = .null := by
  cases v <;> rfl

lemma null_add (v : ColumnValue) : ColumnValue.null.add v = .null := by
  cases v <;> rfl

lemma foldAggregate_cons (a : AggregateComponents) (v : ColumnValue) (vs : List ColumnValue) :
    foldAggregate a (v :: vs) = foldAggregate (a.aggregate v) vs := rfl

lemma foldAggregate_count (vs : List ColumnValue) :
    ∀ c, foldAggregate (.count c) vs = .count (addOnes c vs.length) := by
  induction vs with
  | nil => intro c; rfl
  | cons v rest ih =>
    intro c
    rw [foldAggregate_cons]
    show foldAggregate (.count (aggregableMerge c .count v)) rest = _
    rw [show aggregableMerge c .count v = c.add (.integer 1) from rfl, ih]
    rfl

lemma foldAggregate_sum_null (vs : List ColumnValue) :
    foldAggregate (.sum .null) vs = .sum .null := by
  induction vs with
  | nil => rfl
  | cons v rest ih =>
    rw [foldAggregate_cons]
    show foldAggregate (.sum (ColumnValue.null.add v)) rest = _
    rw [null_add]
    exact ih

lemma foldAggregate_avg_null (vs : List ColumnValue) :
    ∀ c, foldAggregate (.avg .null c) vs = .avg .null (addOnes c vs.length) := by
  induction vs with
  | nil => intro c; rfl
  | cons v rest ih =>
    intro c
    rw [foldAggregate_cons]
    show foldAggregate (.avg (ColumnValue.null.add v) (c.add (.integer 1))) rest = _
    rw [null_add, ih]
    rfl

lemma foldAggregate_sum_of_mem_null (vs : List ColumnValue) (h : ColumnValue.null ∈ vs) :
    ∀ s, foldAggregate (.sum s) vs = .sum .null := by
  induction vs with
  | nil => cases h
  | cons v rest ih =>
    intro s
    rw [foldAggregate_cons]
    show foldAggregate (.sum (s.add v)) rest = _
    rcases List.mem_cons.mp h with hv | hrest
    · rw [← hv, add_null]
      exact foldAggregate_sum_null rest
    · exact ih hrest (s.add v)

lemma foldAggregate_avg_of_mem_null (vs : List ColumnValue) (h : ColumnValue.null ∈ vs) :
    ∀ s c, foldAggregate (.avg s c) vs = .avg .null (addOnes c vs.length) := by
  induction vs with
  | nil => cases h
  | cons v rest ih =>
    intro s c
    rw [foldAggregate_cons]
    show foldAggregate (.avg (s.add v) (c.add (.integer 1))) rest = _
    rcases List.mem_cons.mp h with hv | hrest
    · rw [← hv, add_null, foldAggregate_avg_null]
      rfl
    · rw [ih hrest]
      rfl

/-! ### Lemmas about the queried-column token parser -/

lemma firstIndexOf_append_none (p : Char → Bool) (l1 l2 : List Char)
    (h : ∀ c ∈ l1, p c = false) :
    firstIndexOf p (l1 ++ l2) = (firstIndexOf p l2).map (· + l1.length) := by
  induction l1 with
  | nil => simp [firstIndexOf]
  | cons c rest ih =>
    have hc : p c = false := h c (List.mem_cons_self c rest)
    have ih2 := ih (fun c2 hc2 => h c2 (List.mem_cons_of_mem c hc2))
    rw [List.cons_append,
      show firstIndexOf p (c :: (rest ++ l2)) = (firstIndexOf p (rest ++ l2)).map (· + 1) from
        by simp [firstIndexOf, hc],
      ih2, Option.map_map]
    cases firstIndexOf p l2 with
    | none => rfl
    | some x =>
      show some (x + rest.length + 1) = some (x + (rest.length + 1))
      rw [Nat.add_assoc]

lemma toList_token (fn col : String) :
    (fn ++ "(" ++ col ++ ")").toList = fn.toList ++ '(' :: (col.toList ++ [')']) := by
  show (fn ++ "(" ++ col ++ ")").data = fn.data ++ '(' :: (col.data ++ [')'])
  simp [String.data_append]

/-- On a well-shaped token `fn(col)` — pre-trimmed non-empty parts free of
parentheses — `try_parse_queried_column` yields the parsed aggregate and
the column name. -/
lemma tryParse_token (fn col : String)
    (htok : trimChars (fn ++ "(" ++ col ++ ")") = fn ++ "(" ++ col ++ ")")
    (hfn_tr : trimChars fn = fn) (hcol_tr : trimChars col = col)
    (hfn_ne : fn ≠ "") (hcol_ne : col ≠ "")
    (hfn_chars : ∀ c ∈ fn.toList, c ≠ '(' ∧ c ≠ ')')
    (hcol_chars : ∀ c ∈ col.toList, c ≠ '(' ∧ c ≠ ')') :
    try_parse_queried_column (fn ++ "(" ++ col ++ ")") =
      .ok (some (Aggregate.fromStr fn), col) := by
  have h1 : firstIndexOf (fun c => c = '(') (fn.toList ++ '(' :: (col.toList ++ [')'])) =
      some fn.toList.length := by
    rw [firstIndexOf_append_none _ _ _ (fun c hc => by simp [(hfn_chars c hc).1])]
    simp [firstIndexOf]
  have h2 : firstIndexOf (fun c => c = ')') (fn.toList ++ '(' :: (col.toList ++ [')'])) =
      some (fn.toList.length + (col.toList.length + 1)) := by
    rw [firstIndexOf_append_none _ _ _ (fun c hc => by simp [(hfn_chars c hc).2])]
    have hinner : firstIndexOf (fun c => c = ')') ('(' :: (col.toList ++ [')'])) =
        some (col.toList.length + 1) := by
      rw [show firstIndexOf (fun c => c = ')') ('(' :: (col.toList ++ [')'])) =
          (firstIndexOf (fun c => c = ')') (col.toList ++ [')'])).map (· + 1) from
          by simp [firstIndexOf],
        firstIndexOf_append_none _ _ _ (fun c hc => by simp [(hcol_chars c hc).2])]
      simp [firstIndexOf]
    rw [hinner]
    simp [Nat.add_comm]
  have hle : fn.toList.length + 1 ≤ fn.toList.length + (col.toList.length + 1) := by omega
  have htake : (fn.toList ++ '(' :: (col.toList ++ [')'])).take fn.toList.length = fn.toList :=
    List.take_left fn.toList _
  have hdrop : (fn.toList ++ '(' :: (col.toList ++ [')'])).drop (fn.toList.length + 1) =
      col.toList ++ [')'] := by
    rw [show fn.toList ++ '(' :: (col.toList ++ [')']) =
        (fn.toList ++ ['(']) ++ (col.toList ++ [')']) by simp]
    rw [show fn.toList.length + 1 = (fn.toList ++ ['(']).length by simp]
    exact List.drop_left _ _
  have harith : fn.toList.length + (col.toList.length + 1) - (fn.toList.length + 1) =
      col.toList.length := by omega
  simp only [try_parse_queried_column, htok, toList_token, h1, h2, if_pos hle, hdrop,
    harith, htake, List.take_left col.toList]
  have hfn_str : String.mk fn.toList = fn := rfl
  have hcol_str : String.mk col.toList = col := rfl
  rw [hfn_str, hcol_str, hfn_tr, hcol_tr, if_pos ⟨hfn_ne, hcol_ne⟩]

/-! ### Claim theorems -/

/-- C1: the claim says a read failure on a column cursor is treated as EOF
for that column (Null in the remaining slots), and that the sparse
scenario — `events(a integer, b integer)`, insert `[1],[2]` into `a` then
`[10]` into `b`, `SELECT a, b` — returns three rows.  Evaluating the
embedded code on that exact scenario: both inserts succeed and the query
aborts with the propagated `UnexpectedEof` of column `a`'s cursor instead
of producing rows (the `?` in `query_values` returns the error). -/
theorem c1_sparse_read_failure_aborts_query :
    eventsInsertA.2 = .ok () ∧ eventsInsertB.2 = .ok () ∧
    (Table.queryOp eventsInsertB.1 ["a", "b"] none).2 = .error .unexpectedEof := by
  decide

/-- C5: merging two partial aggregate states for the same group key
combines every component additively — `Count` becomes the sum of both
running counts, `Sum` the sum of both sums, `Avg` adds componentwise —
never the per-row ingestion fold; and finalizing a merged `Avg` computes
sum over count of the combined state. -/
theorem c5_merge_is_additive_combine :
    (∀ a b, AggregateComponents.merge (.count a) (.count b) = .count (a.add b)) ∧
    (∀ a b, AggregateComponents.merge (.sum a) (.sum b) = .sum (a.add b)) ∧
    (∀ s1 c1 s2 c2, AggregateComponents.merge (.avg s1 c1) (.avg s2 c2) =
      .avg (s1.add s2) (c1.add c2)) ∧
    (∀ ac x y, GroupValue.merge ⟨[(ac, x)]⟩ ⟨[(ac, y)]⟩ = ⟨[(ac, x.merge y)]⟩) ∧
    (∀ k ac s1 c1 s2 c2,
      AggregatedRow.from_group k
          (GroupValue.merge ⟨[(ac, .avg s1 c1)]⟩ ⟨[(ac, .avg s2 c2)]⟩) =
        ⟨k.entries, [(ac, (s1.add s2).div (c1.add c2), [s1.add s2, c1.add c2])]⟩) := by
  refine ⟨fun a b => rfl, fun a b => rfl, fun s1 c1 s2 c2 => rfl, ?_, ?_⟩
  · intro ac x y
    simp [GroupValue.merge, mergeAggregatesGo, findRemove]
  · intro k ac s1 c1 s2 c2
    simp [GroupValue.merge, mergeAggregatesGo, findRemove, AggregatedRow.from_group,
      AggregateComponents.merge, AggregateComponents.compute, aggregableMerge]

/-- C6: the claim says an empty final result is answered with the `Empty`
variant and empty errors.  Evaluating the embedded code: both serializers
index element 0 and panic on an empty result, and the handler on an empty
table (whose final merged result is `Rows []`) panics instead of
answering `Empty { errors: [] }`. -/
theorem c6_empty_result_panics :
    serialize_query_result (.rows []) = .error () ∧
    serialize_query_result (.aggregatedRows []) = .error () ∧
    (Table.queryOp freshX ["x"] none).2 = .ok (.rows []) ∧
    queryHandler freshX [] ["x"] none = .error () := by
  decide

/-- C7: inserting a string into an Integer column fails with an
`InvalidData` error naming the column and its declared type, and the
persisted `row_count` is unchanged by the failed call (the index gains an
entry, but `TableStats::increment` is never reached). -/
theorem c7_string_into_integer_column_fails (t : Table) (name : String) (c : Column)
    (s : String) (ts : Nat) (hfind : get_column t.columns name = .ok c)
    (hty : c.ty = .integer) :
    (Table.insertOp t ts [name] [[Json.str s]]).2 =
      .error (.invalidData
        ("Column " ++ c.name ++ " has type " ++ c.ty.toStr ++ " but you supplied a string")) ∧
    c.ty.toStr = "integer" ∧
    ((Table.insertOp t ts [name] [[Json.str s]]).1.statsFile.getD (0, 0)).1 =
      (t.statsFile.getD (0, 0)).1 := by
  refine ⟨?_, by rw [hty]; rfl, ?_⟩ <;>
    simp [Table.insertOp, Table.load, parse_and_validate_columns, hfind,
      Table.insertRows, Table.insertRowValues, Table.insert_value, hty,
      Table.ensure_files, TableStats.from_file]

/-- C8 counterexample: the claim says every file name outside the accepted
shape — including an unknown type part such as `foo.bar.dsto` — is
rejected by returning no column; on that input the parser instead panics
in `From<&str> for ColumnType`. -/
theorem c8_counterexample_unknown_type_panics :
    parse_column_file_name "foo.bar.dsto" = .error () ∧
    parse_column_file_name "foo.bar.dsto" ≠ .ok none := by
  decide

/-- C10: a `Null` fed into the ingestion fold of a `Sum` component — or of
the sum component of `Avg` — makes it `Null` and it stays `Null` for every
later row, so the group's sum finalizes to `Null`; the count components
still count every row (`Count` adds one per row regardless of value). -/
theorem c10_null_absorbs_sums (vs : List ColumnValue) (h : ColumnValue.null ∈ vs)
    (s sum0 cnt0 c : ColumnValue) :
    foldAggregate (.sum s) vs = .sum .null ∧
    (foldAggregate (.sum s) vs).compute = (.null, [.null]) ∧
    foldAggregate (.avg sum0 cnt0) vs = .avg .null (addOnes cnt0 vs.length) ∧
    foldAggregate (.count c) vs = .count (addOnes c vs.length) := by
  refine ⟨foldAggregate_sum_of_mem_null vs h s, ?_,
    foldAggregate_avg_of_mem_null vs h sum0 cnt0, foldAggregate_count vs c⟩
  rw [foldAggregate_sum_of_mem_null vs h s]
  rfl

/-- Evaluation of the local-aggregation scenario: `SELECT count(x),
sum(x), avg(x)` over `nums(x integer)` holding `1, 2, 3, 4`. -/
lemma numsQuery_eval :
    numsQuery = .ok (.aggregatedRows [⟨[],
      [(⟨.count, xColumn⟩, .integer 4, [.integer 4]),
       (⟨.sum, xColumn⟩, .integer 10, [.integer 10]),
       (⟨.avg, xColumn⟩, .float (5/2), [.float 10, .float 4])]⟩]) := by
  have hsplit : numsQuery = .ok (.aggregatedRows (Table.aggregate_rows
      [⟨0, 0, [(xColumn, .integer 1), (xColumn, .integer 1), (xColumn, .integer 1)]⟩,
       ⟨1, 0, [(xColumn, .integer 2), (xColumn, .integer 2), (xColumn, .integer 2)]⟩,
       ⟨2, 0, [(xColumn, .integer 3), (xColumn, .integer 3), (xColumn, .integer 3)]⟩,
       ⟨3, 0, [(xColumn, .integer 4), (xColumn, .integer 4), (xColumn, .integer 4)]⟩]
      [⟨.count, xColumn⟩, ⟨.sum, xColumn⟩, ⟨.avg, xColumn⟩] [])) := rfl
  rw [hsplit]
  simp [Table.aggregate_rows, insertGroup, Row.group, GroupValue.new, GroupValue.add,
    Row.value, AggregateComponents.new, AggregateComponents.aggregate, aggregableMerge,
    aggregableInit, ColumnValue.ofType, ColumnValue.add, sortedInsertPair,
    AggregatedRow.from_group, AggregateComponents.compute, ColumnValue.div, xColumn]
  norm_num

/-- C2 counterexample: the claim says the aggregated row's three values
are the integers 4, 10 and 2 (integer Avg truncating); the code instead
yields `Float 2.5` for `avg(x)` because `Aggregable::init` starts both
`Avg` components at `Float(0.0)`, so the average is computed by float
division, and `Float 2.5` is not `Integer 2`. -/
theorem c2_counterexample_avg_is_float :
    aggregateValues numsQuery =
      [.integer 4, .integer 10, .float (5/2)] ∧
    ColumnValue.float (5/2) ≠ ColumnValue.integer 2 := by
  refine ⟨?_, fun h => ColumnValue.noConfusion h⟩
  rw [numsQuery_eval]
  rfl

/-- C2 amended: `SELECT count(x), sum(x), avg(x)` over `nums(x integer)`
holding `[[1],[2],[3],[4]]` returns one aggregated row with `count(x) =
Integer 4` (components `[4]`), `sum(x) = Integer 10` (components `[10]`),
and `avg(x) = Float 2.5` with components `[Float 10.0, Float 4.0]` — the
`Avg` state is initialized to `Float(0.0)` so integers are cast and the
final division is a float division, not a truncating integer division. -/
theorem c2_amended_aggregation_values :
    numsQuery = .ok (.aggregatedRows [⟨[],
      [(⟨.count, xColumn⟩, .integer 4, [.integer 4]),
       (⟨.sum, xColumn⟩, .integer 10, [.integer 10]),
       (⟨.avg, xColumn⟩, .float (5/2), [.float 10, .float 4])]⟩]) :=
  numsQuery_eval

/-- C8 amended: on ASCII file names — where `Char.isAlphanum` coincides
with Rust's Unicode `char::is_alphanumeric` — the parser accepts exactly
the names with three dot parts `name.type.ext`, `ext = "dsto"`,
`type ∈ {integer, float, string}` and a non-empty `[A-Za-z0-9_]` name; but
a name that is otherwise well formed with an unknown non-empty type part
makes it panic in `From<&str> for ColumnType` instead of returning no
column, and only the remaining ill-formed names return no column. -/
theorem c8_amended_parser_characterization (s : String)
    (_hascii : ∀ c ∈ s.toList, c.toNat < 128) :
    (∀ v, parse_column_file_name s = .ok (some v) ↔ claimAccepts s = some v) ∧
    (parse_column_file_name s = .error () ↔ claimPanicShape s) := by
  rcases h : splitOnDot s with _ | ⟨a, _ | ⟨b, _ | ⟨c, _ | ⟨d, rest⟩⟩⟩⟩ <;>
    simp only [parse_column_file_name, claimAccepts, claimPanicShape, h] <;>
    try simp
  by_cases hdsto : c = "dsto"
  · subst hdsto
    by_cases htyempty : b = ""
    · subst htyempty
      simp [ColumnType.fromStr?]
    · by_cases hn1 : a = ""
      · subst hn1
        simp [htyempty]
      · by_cases hn2 : ∀ x ∈ a.toList, (x.isAlphanum ∨ x = '_')
        · have hcond : ¬ ∃ x ∈ a.data, x.isAlphanum = false ∧ ¬ x = '_' := by
            rintro ⟨x, hx, hfalse, hne⟩
            rcases hn2 x hx with h1 | h1
            · rw [h1] at hfalse; cases hfalse
            · exact hne h1
          have hgood : ∀ x ∈ a.data, x.isAlphanum = true ∨ x = '_' := hn2
          by_cases hb1 : b = "integer"
          · subst hb1
            simp [ColumnType.fromStr?, hn1, hcond]
            exact hgood
          · by_cases hb2 : b = "float"
            · subst hb2
              simp [ColumnType.fromStr?, hn1, hcond]
              exact hgood
            · by_cases hb3 : b = "string"
              · subst hb3
                simp [ColumnType.fromStr?, hn1, hcond]
                exact hgood
              · simp [ColumnType.fromStr?, hb1, hb2, hb3, hn1, hcond, htyempty]
                exact hgood
        · have hnotgood : ¬ ∀ x ∈ a.data, x.isAlphanum = true ∨ x = '_' := hn2
          have hex : ∃ x ∈ a.data, x.isAlphanum = false ∧ ¬ x = '_' := by
            simp only [not_forall, Classical.not_imp, not_or, Bool.not_eq_true] at hn2
            obtain ⟨x, hx, hfalse, hne⟩ := hn2
            exact ⟨x, hx, hfalse, hne⟩
          simp [hex, hnotgood]
  · simp [hdsto]

/-- C9: an ASCII select token `FN(name)` — with `White_Space`-trim-stable,
parenthesis-free, non-empty parts, and a function part that lowercases
(`Char.toLower` coincides with Rust `to_lowercase` on ASCII) to none of
`count`, `sum`, `avg` — is accepted and its aggregate is silently
evaluated as `count`; the three known names map to themselves
case-insensitively. -/
theorem c9_unknown_aggregate_treated_as_count (fn col : String)
    (_hfn_ascii : ∀ c ∈ fn.toList, c.toNat < 128)
    (_hcol_ascii : ∀ c ∈ col.toList, c.toNat < 128)
    (htok : trimChars (fn ++ "(" ++ col ++ ")") = fn ++ "(" ++ col ++ ")")
    (hfn_tr : trimChars fn = fn) (hcol_tr : trimChars col = col)
    (hfn_ne : fn ≠ "") (hcol_ne : col ≠ "")
    (hfn_chars : ∀ c ∈ fn.toList, c ≠ '(' ∧ c ≠ ')')
    (hcol_chars : ∀ c ∈ col.toList, c ≠ '(' ∧ c ≠ ')')
    (hunknown : rustToLowercase fn ≠ "count" ∧ rustToLowercase fn ≠ "sum" ∧
      rustToLowercase fn ≠ "avg") :
    try_parse_queried_column (fn ++ "(" ++ col ++ ")") = .ok (some .count, col) ∧
    (∀ (avail : List Column) (c0 : Column), get_column avail col = .ok c0 →
      parse_and_validate_queried_columns avail [fn ++ "(" ++ col ++ ")"] =
        .ok ([c0], [⟨.count, c0⟩])) ∧
    (∀ s, rustToLowercase s = "count" → Aggregate.fromStr s = .count) ∧
    (∀ s, rustToLowercase s = "sum" → Aggregate.fromStr s = .sum) ∧
    (∀ s, rustToLowercase s = "avg" → Aggregate.fromStr s = .avg) := by
  have hfs : Aggregate.fromStr fn = .count := by
    unfold Aggregate.fromStr
    split <;> simp_all
  have hparse := tryParse_token fn col htok hfn_tr hcol_tr hfn_ne hcol_ne hfn_chars hcol_chars
  rw [hfs] at hparse
  refine ⟨hparse, ?_, ?_, ?_, ?_⟩
  · intro avail c0 hc0
    simp [parse_and_validate_queried_columns, hparse, hc0]
  · intro s hs
    unfold Aggregate.fromStr
    rw [hs]
    rfl
  · intro s hs
    unfold Aggregate.fromStr
    rw [hs]
    rfl
  · intro s hs
    unfold Aggregate.fromStr
    rw [hs]
    rfl

/-- Witness for C9 at the concrete token `median(x)`. -/
theorem c9_witness :
    try_parse_queried_column "median(x)" = .ok (some .count, "x") ∧
    parse_and_validate_queried_columns [xColumn] ["median(x)"] =
      .ok ([xColumn], [⟨.count, xColumn⟩]) := by
  have h := c9_unknown_aggregate_treated_as_count "median" "x" (by decide) (by decide)
    (by decide) (by decide) (by decide) (by decide) (by decide) (by decide)
    (by decide) (by decide)
  have heq : ("median" ++ "(" ++ "x" ++ ")" : String) = "median(x)" := by decide
  constructor
  · have h1 := h.1
    rwa [heq] at h1
  · have h2 := h.2.1 [xColumn] xColumn (by decide)
    rwa [heq] at h2

/-- Witness for C8 at concrete accepted and rejected names. -/
theorem c8_witness :
    parse_column_file_name "age.integer.dsto" = .ok (some ("age", .integer)) ∧
    parse_column_file_name ".index.dsto" = .ok none := by
  constructor
  · exact ((c8_amended_parser_characterization "age.integer.dsto" (by decide)).1
      ("age", .integer)).mpr (by decide)
  · decide

/-! ### Lemmas for the stats/index invariant -/

lemma insertRowValues_fields (cols : List Column) :
    ∀ (vs : List Json) (t : Table) (n ts : Nat),
    (Table.insertRowValues t n ts cols vs).1.index = t.index ∧
    (Table.insertRowValues t n ts cols vs).1.statsFile = t.statsFile := by
  induction cols with
  | nil => intro vs t n ts; exact ⟨rfl, rfl⟩
  | cons c cs ih =>
    intro vs t n ts
    cases vs with
    | nil => exact ⟨rfl, rfl⟩
    | cons v vrest =>
      rw [show Table.insertRowValues t n ts (c :: cs) (v :: vrest) =
        (match Table.insert_value c v with
         | .error e => (t, Except.error e)
         | .ok payload => Table.insertRowValues
             { t with files := appendEntry t.files c ⟨n, ts, payload⟩ } n ts cs vrest) from rfl]
      cases Table.insert_value c v with
      | error e => exact ⟨rfl, rfl⟩
      | ok payload => exact ih vrest _ n ts

lemma insertRows_inv (vals : List (List Json)) :
    ∀ (t : Table) (stats : TableStats) (ts : Nat) (cols : List Column) (t2 : Table),
    stats.row_count = stats.next_index →
    stats.row_count = t.index.length →
    t.statsFile = some (stats.row_count, stats.row_count) →
    Table.insertRows t stats ts cols vals = (t2, .ok ()) →
    statsInv t2 := by
  induction vals with
  | nil =>
    intro t stats ts cols t2 h1 h2 h3 heq
    rw [Table.insertRows] at heq
    cases heq
    unfold statsInv
    rw [h3]
    exact ⟨rfl, h2⟩
  | cons v rest ih =>
    intro t stats ts cols t2 h1 h2 h3 heq
    rw [Table.insertRows] at heq
    by_cases harity : v.length ≠ cols.length
    · rw [if_pos harity] at heq
      simp at heq
    · rw [if_neg harity] at heq
      rcases hrv : Table.insertRowValues
          { t with index := t.index ++ [⟨stats.next_index, ts⟩] }
          stats.next_index ts cols v with ⟨t3, res⟩
      rw [hrv] at heq
      cases res with
      | error e => simp at heq
      | ok u =>
        cases u
        have hfields := insertRowValues_fields cols v
          { t with index := t.index ++ [⟨stats.next_index, ts⟩] } stats.next_index ts
        rw [hrv] at hfields
        refine ih _ _ ts cols t2 ?_ ?_ ?_ heq
        · simp [TableStats.increment, h1]
        · show stats.increment.1.row_count = _
          simp only [TableStats.increment]
          rw [hfields.1]
          simp [h2]
        · rfl

lemma query_preserves (t : Table) (sel : List String) (gb : Option (List String)) :
    (Table.query t sel gb).1.statsFile = t.statsFile ∧
    (Table.query t sel gb).1.index = t.index := by
  unfold Table.query
  split
  · exact ⟨rfl, rfl⟩
  · split
    · exact ⟨rfl, rfl⟩
    · split
      · exact ⟨rfl, rfl⟩
      · split <;> exact ⟨rfl, rfl⟩

/-- C3 amended: the invariant `row_count = next_row_id = number of index
entries` holds for a freshly created table, is kept by re-creating over an
existing table, by loading, by every insert whose call returns success,
and by every query — but not by every insert call: a failed insert can
break it (see the counterexample). -/
theorem c3_amended_stats_invariant :
    (∀ cols, statsInv (TableDefinition.create cols none)) ∧
    (∀ cols t, statsInv t → statsInv (TableDefinition.create cols (some t))) ∧
    (∀ t, statsInv t → statsInv (t.load).1) ∧
    (∀ t ts cols vals t2, statsInv t →
      Table.insertOp t ts cols vals = (t2, .ok ()) → statsInv t2) ∧
    (∀ t sel gb, statsInv t → statsInv (Table.queryOp t sel gb).1) := by
  refine ⟨?_, ?_, ?_, ?_, ?_⟩
  · intro cols
    simp [TableDefinition.create, statsInv]
  · intro cols t h
    exact h
  · intro t h
    unfold statsInv at h ⊢
    simp [Table.load, TableStats.from_file]
    exact h
  · intro t ts cols vals t2 h heq
    unfold Table.insertOp at heq
    rcases hp : parse_and_validate_columns (t.load).1.columns cols with e | pcols
    · rw [hp] at heq
      simp at heq
    · rw [hp] at heq
      refine insertRows_inv vals _ _ ts pcols t2 ?_ ?_ ?_ heq
      · exact h.1
      · exact h.2
      · show ((t.load).1.ensure_files pcols).statsFile = _
        have hsame : ((t.load).1.ensure_files pcols).statsFile = (t.load).1.statsFile := rfl
        rw [hsame]
        show some ((t.statsFile.getD (0, 0)).1, (t.statsFile.getD (0, 0)).2) =
          some ((t.statsFile.getD (0, 0)).1, (t.statsFile.getD (0, 0)).1)
        rw [h.1]
  · intro t sel gb h
    unfold Table.queryOp
    have hq := query_preserves (t.load).1 sel gb
    unfold statsInv at h ⊢
    rw [hq.1, hq.2]
    simp [Table.load, TableStats.from_file]
    exact h

/-- C3 counterexample: the claim says the invariant is preserved by every
operation; a type-mismatched insert appends its index entry before the
value write fails and never increments the stats, leaving `row_count = 0`
against one index entry. -/
theorem c3_counterexample_failed_insert :
    statsInv (TableDefinition.create [⟨"a", .integer⟩] none) ∧
    (Table.insertOp (TableDefinition.create [⟨"a", .integer⟩] none) 0 ["a"]
      [[Json.str "hello"]]).2 =
      .error (.invalidData "Column a has type integer but you supplied a string") ∧
    ¬ statsInv (Table.insertOp (TableDefinition.create [⟨"a", .integer⟩] none) 0 ["a"]
      [[Json.str "hello"]]).1 := by
  decide

/-- Witness for C3 at a concrete successful insert. -/
theorem c3_witness :
    statsInv freshX ∧
    Table.insertOp freshX 0 ["x"] [[Json.int 5]] =
      ((Table.insertOp freshX 0 ["x"] [[Json.int 5]]).1, .ok ()) ∧
    statsInv (Table.insertOp freshX 0 ["x"] [[Json.int 5]]).1 := by
  refine ⟨by decide, by decide, ?_⟩
  exact c3_amended_stats_invariant.2.2.2.1 freshX 0 ["x"] [[Json.int 5]]
    (Table.insertOp freshX 0 ["x"] [[Json.int 5]]).1 (by decide) (by decide)

/-- Witness for C7 at a concrete table. -/
theorem c7_witness :
    get_column (TableDefinition.create [⟨"a", .integer⟩] none).columns "a" =
      .ok ⟨"a", .integer⟩ ∧
    (Table.insertOp (TableDefinition.create [⟨"a", .integer⟩] none) 0 ["a"]
        [[Json.str "hello"]]).2 =
      .error (.invalidData
        ("Column " ++ (Column.mk "a" .integer).name ++ " has type " ++
          (Column.mk "a" .integer).ty.toStr ++ " but you supplied a string")) := by
  refine ⟨by decide, ?_⟩
  exact (c7_string_into_integer_column_fails (TableDefinition.create [⟨"a", .integer⟩] none)
    "a" ⟨"a", .integer⟩ "hello" 0 (by decide) rfl).1

/-- Witness for C10 at a concrete stream containing a `Null`. -/
theorem c10_witness :
    ColumnValue.null ∈ [ColumnValue.integer 1, ColumnValue.null, ColumnValue.integer 2] ∧
    foldAggregate (.sum (.integer 0))
      [ColumnValue.integer 1, ColumnValue.null, ColumnValue.integer 2] = .sum .null ∧
    foldAggregate (.count (.integer 0))
      [ColumnValue.integer 1, ColumnValue.null, ColumnValue.integer 2] =
      .count (addOnes (.integer 0) 3) := by
  have h := c10_null_absorbs_sums
    [ColumnValue.integer 1, ColumnValue.null, ColumnValue.integer 2] (by decide)
    (.integer 0) (.integer 0) (.integer 0) (.integer 0)
  exact ⟨by decide, h.1, h.2.2.2⟩


lemma insertRows_x (ys : List Int) :
    ∀ (n : Nat) (I : List IndexEntry) (F : List ColumnEntry),
    Table.insertRows ⟨[xColumn], some (n, n), I, [(xColumn, F)]⟩ ⟨n, n⟩ 0 [xColumn]
      (intRows ys) =
    (⟨[xColumn], some (n + ys.length, n + ys.length), I ++ xIdxEntries n ys.length,
      [(xColumn, F ++ xColEntries n ys)]⟩, .ok ()) := by
  induction ys with
  | nil =>
    intro n I F
    simp [Table.insertRows, intRows, xIdxEntries, xColEntries]
  | cons y ys ih =>
    intro n I F
    show Table.insertRows _ _ 0 _ ([Json.int y] :: intRows ys) = _
    rw [Table.insertRows, if_neg (by simp)]
    dsimp only [TableStats.increment]
    have hrv : Table.insertRowValues
        ⟨[xColumn], some (n, n), I ++ [⟨n, 0⟩], [(xColumn, F)]⟩ n 0 [xColumn] [Json.int y] =
        (⟨[xColumn], some (n, n), I ++ [⟨n, 0⟩], [(xColumn, F ++ [⟨n, 0, .integer y⟩])]⟩,
          .ok ()) := by
      simp [Table.insertRowValues, Table.insert_value, xColumn, appendEntry]
    rw [hrv]
    dsimp only
    have h2 := ih (n + 1) (I ++ [(⟨n, 0⟩ : IndexEntry)])
      (F ++ [(⟨n, 0, .integer y⟩ : ColumnEntry)])
    rw [h2]
    simp [xIdxEntries, xColEntries, List.append_assoc]
    omega

lemma xIdxEntries_append (m : Nat) : ∀ (s t k : Nat), t = s + m →
    xIdxEntries s m ++ xIdxEntries t k = xIdxEntries s (m + k) := by
  induction m with
  | zero =>
    intro s t k ht
    subst ht
    simp [xIdxEntries]
  | succ m ih =>
    intro s t k ht
    show (⟨s, 0⟩ : IndexEntry) :: (xIdxEntries (s + 1) m ++ xIdxEntries t k) = _
    rw [ih (s + 1) t k (by omega), show m + 1 + k = (m + k) + 1 from by omega]
    rfl

lemma xColEntries_append (zs : List Int) : ∀ (s t : Nat) (c : List Int), t = s + zs.length →
    xColEntries s zs ++ xColEntries t c = xColEntries s (zs ++ c) := by
  induction zs with
  | nil =>
    intro s t c ht
    subst ht
    simp [xColEntries]
  | cons y ys ih =>
    intro s t c ht
    show (⟨s, 0, .integer y⟩ : ColumnEntry) :: (xColEntries (s + 1) ys ++ xColEntries t c) = _
    rw [ih (s + 1) t c (by simp at ht; omega)]
    rfl

/-- `Table::insert` through the handler on the one-column `x` table shape:
any stats header reading as `(n, n)` appends index rows `n, n+1, ...` and
matching column entries, advancing the header by the batch length. -/
lemma insertOp_x (sf : Option (Nat × Nat)) (I : List IndexEntry) (F : List ColumnEntry)
    (ys : List Int) (n : Nat) (h : TableStats.from_file sf = ⟨n, n⟩) :
    Table.insertOp ⟨[xColumn], sf, I, [(xColumn, F)]⟩ 0 ["x"] (intRows ys) =
    (⟨[xColumn], some (n + ys.length, n + ys.length), I ++ xIdxEntries n ys.length,
      [(xColumn, F ++ xColEntries n ys)]⟩, .ok ()) := by
  have hload : Table.load ⟨[xColumn], sf, I, [(xColumn, F)]⟩ =
      (⟨[xColumn], some (n, n), I, [(xColumn, F)]⟩, ⟨n, n⟩) := by
    simp [Table.load, h]
  have hens : Table.ensure_files ⟨[xColumn], some (n, n), I, [(xColumn, F)]⟩ [xColumn] =
      ⟨[xColumn], some (n, n), I, [(xColumn, F)]⟩ := by
    simp [Table.ensure_files]
  simp only [Table.insertOp, hload]
  rw [show parse_and_validate_columns [xColumn] ["x"] = .ok [xColumn] from by decide]
  dsimp only
  rw [hens]
  exact insertRows_x ys n I F

/-- Inserting chunk after chunk into the canonical `x` table state appends
their concatenation. -/
lemma insChunks_x (chunks : List (List Int)) : ∀ zs : List Int,
    insChunks (xTable zs) chunks = xTable (zs ++ chunks.flatten) := by
  induction chunks with
  | nil => intro zs; simp [insChunks, xTable]
  | cons c cs ih =>
    intro zs
    show insChunks (Table.insertOp (xTable zs) 0 ["x"] (intRows c)).1 cs = _
    have hop := insertOp_x (some (zs.length, zs.length)) (xIdxEntries 0 zs.length)
      (xColEntries 0 zs) c zs.length rfl
    rw [show xTable zs = ⟨[xColumn], some (zs.length, zs.length), xIdxEntries 0 zs.length,
        [(xColumn, xColEntries 0 zs)]⟩ from rfl, hop]
    dsimp only
    have hx : (⟨[xColumn], some (zs.length + c.length, zs.length + c.length),
        xIdxEntries 0 zs.length ++ xIdxEntries zs.length c.length,
        [(xColumn, xColEntries 0 zs ++ xColEntries zs.length c)]⟩ : Table) =
        xTable (zs ++ c) := by
      rw [xIdxEntries_append zs.length 0 zs.length c.length (by omega),
          xColEntries_append zs 0 zs.length c (by omega)]
      simp [xTable]
    rw [hx, ih (zs ++ c)]
    simp [xTable, List.append_assoc]

/-- A fresh table after a nonempty chunk sequence is the canonical state of
the concatenation. -/
lemma insChunks_fresh (c : List Int) (cs : List (List Int)) :
    insChunks freshX (c :: cs) = xTable ((c :: cs).flatten) := by
  show insChunks (Table.insertOp freshX 0 ["x"] (intRows c)).1 cs = _
  have hop := insertOp_x none [] [] c 0 rfl
  rw [show freshX = ⟨[xColumn], none, [], [(xColumn, [])]⟩ from rfl, hop]
  dsimp only
  have hx : (⟨[xColumn], some (0 + c.length, 0 + c.length), [] ++ xIdxEntries 0 c.length,
      [(xColumn, [] ++ xColEntries 0 c)]⟩ : Table) = xTable c := by
    simp [xTable]
  rw [hx, insChunks_x cs c]
  rfl


lemma row_group_nil (r : Row) : r.group [] = ⟨[]⟩ := by
  simp [Row.group]

/-- Row reconstruction over the canonical dense single-column state yields
one row per index entry with the stored value. -/
lemma query_values_x (ys : List Int) : ∀ s : Nat,
    query_values (xIdxEntries s ys.length) [(xColumn, xColEntries s ys)] =
      .ok (xRows s ys) := by
  induction ys with
  | nil => intro s; rfl
  | cons y rest ih =>
    intro s
    have hseek : seek_column ⟨s, 0⟩ ((⟨s, 0, .integer y⟩ : ColumnEntry) ::
        xColEntries (s + 1) rest) = .ok (xColEntries (s + 1) rest, some (.integer y)) := by
      simp [seek_column, ColumnEntry.same_row]
    have hrow : query_row [(xColumn, (⟨s, 0, .integer y⟩ : ColumnEntry) ::
        xColEntries (s + 1) rest)] ⟨s, 0⟩ =
        .ok ([(xColumn, xColEntries (s + 1) rest)], [(xColumn, .integer y)]) := by
      simp only [query_row, hseek]
      rfl
    show query_values ((⟨s, 0⟩ : IndexEntry) :: xIdxEntries (s + 1) rest.length)
        [(xColumn, (⟨s, 0, .integer y⟩ : ColumnEntry) :: xColEntries (s + 1) rest)] =
      .ok (xRows s (y :: rest))
    simp only [query_values, hrow, ih (s + 1)]
    rfl

/-- Folding the reconstructed rows into the single global count group. -/
lemma countFold_x (ys : List Int) : ∀ (s : Nat) (k : Int),
    (xRows s ys).foldl
      (fun gs r => insertGroup gs (r.group []) [⟨.count, xColumn⟩] r)
      [(⟨[]⟩, ⟨[(⟨.count, xColumn⟩, .count (.integer k))]⟩)] =
    [(⟨[]⟩, ⟨[(⟨.count, xColumn⟩, .count (.integer (k + ys.length)))]⟩)] := by
  induction ys with
  | nil => intro s k; simp [xRows]
  | cons y rest ih =>
    intro s k
    rw [show xRows s (y :: rest) = ⟨s, 0, [(xColumn, .integer y)]⟩ :: xRows (s + 1) rest
      from rfl, List.foldl_cons]
    have hstep : insertGroup [(⟨[]⟩, ⟨[(⟨.count, xColumn⟩, .count (.integer k))]⟩)]
        (Row.group ⟨s, 0, [(xColumn, .integer y)]⟩ []) [⟨.count, xColumn⟩]
        ⟨s, 0, [(xColumn, .integer y)]⟩ =
        [(⟨[]⟩, ⟨[(⟨.count, xColumn⟩, .count (.integer (k + 1)))]⟩)] := by
      rw [row_group_nil]
      simp [insertGroup, GroupValue.add, Row.value, AggregateComponents.aggregate,
        aggregableMerge, ColumnValue.add]
    rw [hstep, ih (s + 1) (k + 1)]
    rw [show (k : Int) + 1 + rest.length = k + (y :: rest).length from by
      simp only [List.length_cons]
      push_cast
      ring]

/-- Aggregating the canonical rows for `count(x)` yields the single global
group with the row count. -/
lemma aggregate_rows_x (ys : List Int) (s : Nat) (h : ys ≠ []) :
    Table.aggregate_rows (xRows s ys) [⟨.count, xColumn⟩] [] = [countRow ys.length] := by
  cases ys with
  | nil => exact absurd rfl h
  | cons y rest =>
    rw [Table.aggregate_rows]
    rw [show xRows s (y :: rest) = ⟨s, 0, [(xColumn, .integer y)]⟩ :: xRows (s + 1) rest
      from rfl, List.foldl_cons]
    have hfirst : insertGroup [] (Row.group ⟨s, 0, [(xColumn, .integer y)]⟩ [])
        [⟨.count, xColumn⟩] ⟨s, 0, [(xColumn, .integer y)]⟩ =
        [(⟨[]⟩, ⟨[(⟨.count, xColumn⟩, .count (.integer 1))]⟩)] := by
      rw [row_group_nil]
      simp [insertGroup, GroupValue.new, GroupValue.add, Row.value,
        AggregateComponents.new, aggregableInit, AggregateComponents.aggregate,
        aggregableMerge, ColumnValue.add]
    rw [hfirst, countFold_x rest (s + 1) 1]
    simp [AggregatedRow.from_group, AggregateComponents.compute, countRow]
    omega

/-- `SELECT count(x)` on the canonical nonempty state yields the single
count row. -/
lemma queryOp_x (ys : List Int) (h : ys ≠ []) :
    (Table.queryOp (xTable ys) ["count(x)"] none).2 =
      .ok (.aggregatedRows [countRow ys.length]) := by
  have hparse : parse_and_validate_queried_columns [xColumn] ["count(x)"] =
      .ok ([xColumn], [⟨.count, xColumn⟩]) := by decide
  have hload : Table.load (xTable ys) = (xTable ys, ⟨ys.length, ys.length⟩) := by
    simp [Table.load, xTable, TableStats.from_file]
  have hens : Table.ensure_files (xTable ys) [xColumn] = xTable ys := by
    simp [Table.ensure_files, xTable]
  have hlf : lookupFile (xTable ys).files xColumn = xColEntries 0 ys := by
    simp [xTable, lookupFile]
  have hidx : (xTable ys).index = xIdxEntries 0 ys.length := rfl
  have hcols : (xTable ys).columns = [xColumn] := rfl
  simp only [Table.queryOp, hload, Table.query, hcols, hparse]
  rw [show parse_and_validate_columns [xColumn] (none.getD []) = .ok [] from rfl]
  rw [hens]
  simp only [List.map_cons, List.map_nil, hlf, hidx, query_values_x ys 0]
  rw [if_neg (by simp)]
  rw [aggregate_rows_x ys 0 h]


/-- Serializing the single count row produces the count response. -/
lemma serialize_count (k : Int) :
    serialize_query_result (.aggregatedRows [countRow k]) = .ok (countResponse k) := rfl

/-- Re-hydrating the count response recovers the single count row. -/
lemma to_query_result_count (k : Int) :
    (countResponse k).to_query_result = .ok (.aggregatedRows [countRow k]) := rfl

/-- Merging two count results adds the counts. -/
lemma merge_count (a b : Int) :
    QueryResult.merge (.aggregatedRows [countRow a]) (.aggregatedRows [countRow b]) =
      .ok (.aggregatedRows [countRow (a + b)]) := rfl

/-- The peer-side handler on a nonempty canonical state serializes the
count. -/
lemma localCount_x (ys : List Int) (h : ys ≠ []) :
    localQueryHandler (xTable ys) ["count(x)"] none = .ok (countResponse ys.length) := by
  unfold localQueryHandler
  rw [queryOp_x ys h]
  exact serialize_count _

lemma collectE_map_ok {ε α β : Type} (f : β → α) (l : List β) :
    collectE (l.map fun x => (Except.ok (f x) : Except ε α)) = .ok (l.map f) := by
  induction l with
  | nil => rfl
  | cons x rest ih => simp only [List.map_cons, collectE, ih]

/-- Folding count results into a count result sums all the counts. -/
lemma mergeAll_counts (ks : List Int) : ∀ a : Int,
    mergeAll (.aggregatedRows [countRow a]) (ks.map fun k => .aggregatedRows [countRow k]) =
      .ok (.aggregatedRows [countRow (a + ks.sum)]) := by
  induction ks with
  | nil => intro a; simp [mergeAll]
  | cons k rest ih =>
    intro a
    simp only [List.map_cons, mergeAll, merge_count a k]
    rw [ih (a + k), show a + k + rest.sum = a + (k :: rest).sum from by
      simp only [List.sum_cons]
      ring]

/-- The master `query` handler over a nonempty canonical state and peers
answering count responses: every count is summed into the response. -/
lemma queryHandler_counts (ys : List Int) (peers : List Table) (ks : List Int)
    (h : ys ≠ [])
    (hp : peers.map (fun p => localQueryHandler p ["count(x)"] none) =
          ks.map fun k => .ok (countResponse k)) :
    queryHandler (xTable ys) peers ["count(x)"] none =
      .ok (countResponse ((ys.length : Int) + ks.sum)) := by
  unfold queryHandler
  rw [hp, collectE_map_ok]
  dsimp only
  rw [List.map_map]
  have hcomp : (QueryResponse.to_query_result ∘ fun k : Int => countResponse k) =
      fun k : Int => (Except.ok (QueryResult.aggregatedRows [countRow k]) :
        Except Unit QueryResult) :=
    funext fun k => to_query_result_count k
  rw [hcomp, collectE_map_ok]
  dsimp only
  rw [queryOp_x ys h]
  dsimp only
  rw [mergeAll_counts ks ys.length]
  exact serialize_count _


/-- Inserting one batch into a fresh table gives the canonical state. -/
lemma singleTable (xs : List Int) : insChunks freshX [xs] = xTable xs := by
  have hf := insChunks_fresh xs []
  simpa using hf

/-- A peer holding a nonempty share answers its share's count. -/
lemma peer_handler (N : Nat) (rest : List (List Int)) (j : Nat)
    (h : peerVals N rest j ≠ []) :
    localQueryHandler (insChunks freshX (assignChunks N rest 0 j)) ["count(x)"] none =
      .ok (countResponse ((peerVals N rest j).length : Int)) := by
  cases hA : assignChunks N rest 0 j with
  | nil =>
    refine absurd ?_ h
    simp [peerVals, hA]
  | cons c cs =>
    rw [insChunks_fresh c cs]
    have hflat : (c :: cs).flatten = peerVals N rest j := by
      rw [peerVals, hA]
    rw [hflat]
    exact localCount_x _ h

lemma sum_map_add (l : List Nat) (f g : Nat → Nat) :
    (l.map fun j => f j + g j).sum = (l.map f).sum + (l.map g).sum := by
  induction l with
  | nil => rfl
  | cons x rest ih =>
    simp only [List.map_cons, List.sum_cons, ih]
    omega

lemma range_ite_sum (v : Nat) : ∀ (N a : Nat), a < N →
    ((List.range N).map fun j => if a = j then v else 0).sum = v := by
  intro N
  induction N with
  | zero => intro a ha; omega
  | succ N ih =>
    intro a ha
    rw [List.range_succ, List.map_append, List.sum_append]
    by_cases hc : a = N
    · subst hc
      have hz : ((List.range a).map fun j => if a = j then v else 0).sum = 0 := by
        apply List.sum_eq_zero
        intro x hx
        rcases List.mem_map.mp hx with ⟨j, hj, hxe⟩
        have : j < a := List.mem_range.mp hj
        rw [if_neg (by omega)] at hxe
        omega
      simp [hz]
    · have ha2 : a < N := by omega
      rw [ih a ha2]
      simp [hc]

/-- Round-robin distribution conserves the total number of values: over the
`N` shard slots the assigned chunks flatten back to everything sent. -/
lemma assign_len (rest : List (List Int)) (N : Nat) (hN : 0 < N) : ∀ c : Nat,
    ((List.range N).map fun j => (assignChunks N rest c j).flatten.length).sum =
      rest.flatten.length := by
  induction rest with
  | nil => intro c; simp [assignChunks]
  | cons r rs ih =>
    intro c
    have hterm : ∀ j, ((assignChunks N (r :: rs) c j).flatten.length) =
        (if c % N = j then r.length else 0) +
          (assignChunks N rs (c + 1) j).flatten.length := by
      intro j
      rw [assignChunks]
      by_cases hc : c % N = j <;> simp [hc]
    rw [List.map_congr_left fun j _ => hterm j, sum_map_add, ih (c + 1),
      range_ite_sum r.length N (c % N) (Nat.mod_lt c hN)]
    simp

lemma chunksOfFuel_flatten {α : Type} (fuel : Nat) : ∀ (cs : Nat) (l : List α),
    l.length ≤ fuel → cs ≠ 0 → (chunksOfFuel fuel cs l).flatten = l := by
  induction fuel with
  | zero =>
    intro cs l hl _
    cases l with
    | nil => rfl
    | cons a as => simp at hl
  | succ fuel ih =>
    intro cs l hl hcs
    cases l with
    | nil => rfl
    | cons a as =>
      show ((a :: as).take cs :: chunksOfFuel fuel cs ((a :: as).drop cs)).flatten = a :: as
      rw [List.flatten_cons,
        ih cs ((a :: as).drop cs) (by rw [List.length_drop]; simp at hl ⊢; omega) hcs,
        List.take_append_drop]

lemma chunksOfFuel_ne_nil {α : Type} (fuel : Nat) : ∀ (cs : Nat) (l : List α), cs ≠ 0 →
    ∀ c ∈ chunksOfFuel fuel cs l, c ≠ [] := by
  induction fuel with
  | zero =>
    intro cs l _ c hc
    simp [chunksOfFuel] at hc
  | succ fuel ih =>
    intro cs l hcs c hc
    cases l with
    | nil => simp [chunksOfFuel] at hc
    | cons a as =>
      rcases List.mem_cons.mp hc with hhd | htl
      · subst hhd
        cases cs with
        | zero => exact absurd rfl hcs
        | succ cs => simp
      · exact ih cs ((a :: as).drop cs) hcs c htl

/-- `InsertRequest::split` partitions the batch: the chunks flatten back to
the original values and no chunk is empty. -/
lemma split_partition (r : InsertRequest) (n : Nat) (chunks : List InsertRequest)
    (h : r.split n = .ok chunks) :
    (chunks.map InsertRequest.values).flatten = r.values ∧
      ∀ c ∈ chunks, c.values ≠ [] := by
  simp only [InsertRequest.split] at h
  by_cases hcs : (r.values.length + n - 1) / n = 0
  · rw [if_pos hcs] at h
    cases h
  · rw [if_neg hcs] at h
    have hchunks := (Except.ok.injEq _ _).mp h
    subst hchunks
    constructor
    · rw [List.map_map]
      rw [show (InsertRequest.values ∘ fun chunk => InsertRequest.mk r.insert r.into chunk) =
        fun chunk : List (List Json) => chunk from funext fun chunk => rfl]
      rw [List.map_id']
      exact chunksOfFuel_flatten r.values.length _ r.values le_rfl hcs
    · intro c hc
      rcases List.mem_map.mp hc with ⟨chunk, hchunk, hce⟩
      have : chunk ≠ [] := chunksOfFuel_ne_nil r.values.length _ r.values hcs chunk hchunk
      rw [← hce]
      exact this


lemma sum_cast_int (l : List Nat) : (l.map fun n : Nat => (n : Int)).sum = (l.sum : Int) := by
  induction l with
  | nil => rfl
  | cons x rest ih =>
    rw [List.map_cons, List.sum_cons, ih, List.sum_cons]
    push_cast
    ring

/-- The single-node run on a nonempty batch answers the batch length. -/
lemma singleCount_x (xs : List Int) (h : xs ≠ []) :
    singleCountRun xs = .ok (countResponse (xs.length : Int)) := by
  show queryHandler (insChunks freshX [xs]) [] ["count(x)"] none = _
  rw [singleTable xs, queryHandler_counts xs [] [] h rfl]
  norm_num

/-- The distributed run equals the single-node run whenever the master
chunk is nonempty and every one of the `N` shards receives at least one
value. -/
lemma distributed_eq_single (m : List Int) (rest : List (List Int)) (N : Nat)
    (hm : m ≠ []) (hpeer : ∀ j < N, peerVals N rest j ≠ [])
    (hN0 : N = 0 → rest = []) :
    distributedCountRun (m :: rest) N = singleCountRun ((m :: rest).flatten) := by
  have hp : ((List.range N).map fun j => insChunks freshX (assignChunks N rest 0 j)).map
      (fun p => localQueryHandler p ["count(x)"] none) =
      ((List.range N).map fun j => ((peerVals N rest j).length : Int)).map
        fun k => .ok (countResponse k) := by
    rw [List.map_map, List.map_map]
    apply List.map_congr_left
    intro j hj
    simp only [Function.comp]
    exact peer_handler N rest j (hpeer j (List.mem_range.mp hj))
  have hsum : ((List.range N).map fun j => ((peerVals N rest j).length : Int)).sum =
      (rest.flatten.length : Int) := by
    rcases Nat.eq_zero_or_pos N with h0 | hpos
    · subst h0
      rw [hN0 rfl]
      simp
    · rw [show ((List.range N).map fun j => ((peerVals N rest j).length : Int)) =
          ((List.range N).map fun j => (peerVals N rest j).length).map
            (fun n : Nat => (n : Int)) from by rw [List.map_map]; rfl,
        sum_cast_int]
      have hal := assign_len rest N hpos 0
      have hpv : ((List.range N).map fun j => (peerVals N rest j).length) =
          (List.range N).map fun j => (assignChunks N rest 0 j).flatten.length := rfl
      rw [hpv, hal]
  have hflat : (m :: rest).flatten ≠ [] := by
    rw [List.flatten_cons]
    intro hc
    exact hm (List.append_eq_nil.mp hc).1
  show queryHandler (insChunks freshX [m])
    ((List.range N).map fun j => insChunks freshX (assignChunks N rest 0 j))
    ["count(x)"] none = _
  rw [singleTable m, queryHandler_counts m _ _ hm hp, singleCount_x _ hflat, hsum,
    show ((m.length : Int) + (rest.flatten.length : Int)) = ((m :: rest).flatten.length : Int)
      from by rw [List.flatten_cons, List.length_append]; push_cast; ring]


/-- C4 (amended): `InsertRequest::split` does partition the batch — the
chunks flatten back to the original values and none is empty — and the
distributed `SELECT count(x)` run agrees with the single-node run whenever
the master keeps a nonempty chunk and every one of the `N` peers is
assigned at least one value by the round-robin unicast.  Without that
coverage condition the equivalence fails (see the counterexample): an
empty shard panics serializing its empty result, the broadcast error is
swallowed, and every peer count is dropped from the merge. -/
theorem c4_amended_distributed_count_refinement :
    (∀ (r : InsertRequest) (n : Nat) (chunks : List InsertRequest),
      r.split n = .ok chunks →
      (chunks.map InsertRequest.values).flatten = r.values ∧
        ∀ c ∈ chunks, c.values ≠ []) ∧
    (∀ (m : List Int) (rest : List (List Int)) (N : Nat),
      m ≠ [] → (∀ j < N, peerVals N rest j ≠ []) → (N = 0 → rest = []) →
      distributedCountRun (m :: rest) N = singleCountRun ((m :: rest).flatten)) :=
  ⟨split_partition, distributed_eq_single⟩

/-- C4 counterexample: the batch `[1], [2]` split across a master and two
peers leaves peer 1 with no values; its empty query result panics during
serialization, the broadcast failure is logged and discarded, and the
master answers `count(x) = 1` while the single-node run answers
`count(x) = 2`. -/
theorem c4_counterexample_empty_shard :
    distributedCountRun [[1], [2]] 2 = .ok (countResponse 1) ∧
    singleCountRun [1, 2] = .ok (countResponse 2) ∧
    countResponse 1 ≠ countResponse 2 ∧
    peerVals 2 [[2]] 1 = [] := by decide

/-- Witness for C4: the partition property on a concrete three-row split,
and the distributed/single agreement on `[1] / [2], [3]` over two peers. -/
theorem c4_witness :
    (InsertRequest.mk ["x"] "t" [[Json.int 1], [Json.int 2], [Json.int 3]]).split 2 =
      .ok [⟨["x"], "t", [[Json.int 1], [Json.int 2]]⟩, ⟨["x"], "t", [[Json.int 3]]⟩] ∧
    (([⟨["x"], "t", [[Json.int 1], [Json.int 2]]⟩, ⟨["x"], "t", [[Json.int 3]]⟩] :
        List InsertRequest).map InsertRequest.values).flatten =
      [[Json.int 1], [Json.int 2], [Json.int 3]] ∧
    ([1] : List Int) ≠ [] ∧ (∀ j < 2, peerVals 2 [[2], [3]] j ≠ []) ∧
    distributedCountRun [[1], [2], [3]] 2 =
      singleCountRun ([[1], [2], [3]] : List (List Int)).flatten := by
  refine ⟨by decide, ?_, by decide, by decide, ?_⟩
  · exact (c4_amended_distributed_count_refinement.1
      ⟨["x"], "t", [[Json.int 1], [Json.int 2], [Json.int 3]]⟩ 2 _ (by decide)).1
  · exact c4_amended_distributed_count_refinement.2 [1] [[2], [3]] 2
      (by decide) (by decide) (by decide)

end Distribuito
